import Mathlib

/-!
# Verification of the cover-letter generation core

A shallow embedding, in Lean 4, of the core components of the
CoverLetterGenerator repository:

* the budget-constrained content trimmer (`wordCountValidator` in
  `server/pipeline.ts`),
* the in-memory TTL cache and the multi-tenant domain caches
  (`MemoryCache`, `StyleGuideCache`, `ResumeEmbeddingsCache`,
  `CoverLetterDataCache`, `invalidateUserCaches` in `server/cache.ts`),
* the tiered claim validator (`OptimizedResumeValidator` in
  `server/resumeValidator.ts`),
* the pipeline orchestrator (`CoverLetterPipeline.execute` in
  `server/pipeline.ts`).

Text is modelled as `List Char` (JavaScript strings over their code
units; all inputs of interest are ASCII).  JavaScript numbers that stay
integral are modelled as `Int` / `Nat`; fractional scores are modelled
as `ℚ`, with `Option ℚ` when a value can be `NaN` (`none` = `NaN`).
Effectful external calls (LLM requests, the database-backed record
store) are modelled as oracle parameters or explicit state, as noted at
each definition.
-/

set_option maxRecDepth 100000

/-! ## Basic JavaScript string primitives over `List Char` -/

/-- The character class `\s` of JavaScript regular expressions
(ASCII whitespace, NBSP, BOM and the Unicode space separators). -/
def isJsWs (c : Char) : Bool :=
  c = ' ' ∨ c = '\t' ∨ c = '\n' ∨ c = '\r' ∨ c.toNat = 0x0b ∨ c.toNat = 0x0c ∨
  c.toNat = 0xa0 ∨ c.toNat = 0x1680 ∨ (0x2000 ≤ c.toNat ∧ c.toNat ≤ 0x200a) ∨
  c.toNat = 0x2028 ∨ c.toNat = 0x2029 ∨ c.toNat = 0x202f ∨ c.toNat = 0x205f ∨
  c.toNat = 0x3000 ∨ c.toNat = 0xfeff

/-- The sentence-boundary punctuation class `[.!?]` used by the trimmer. -/
def isSentencePunct (c : Char) : Bool :=
  c = '.' ∨ c = '!' ∨ c = '?'

/-- `String.prototype.trim`: strip leading and trailing `\s` characters. -/
def trimChars (l : List Char) : List Char :=
  ((l.dropWhile isJsWs).reverse.dropWhile isJsWs).reverse

/-- Token counter with an `inWord` state: the number of maximal runs of
non-whitespace characters in `l`, continuing a run iff `inWord`. -/
def countTokensGo : List Char → Bool → Nat
  | [], _ => 0
  | c :: rest, inWord =>
    if isJsWs c then countTokensGo rest false
    else (if inWord then 0 else 1) + countTokensGo rest true

/-- The number of whitespace-separated words in `l`; for a string with a
non-empty trim this equals `l.trim().split(/\s+/).length`. -/
def countTokens (l : List Char) : Nat :=
  countTokensGo l false

/-- `s.split(/\s+/)` of JavaScript: split on maximal whitespace runs,
keeping the empty fragments that arise at a leading or trailing run.
A whitespace character opens a new separator run exactly when the next
character is not also whitespace-continuing the same run. -/
def jsSplitWs : List Char → List (List Char)
  | [] => [[]]
  | c :: rest =>
    if isJsWs c then
      if rest.head?.elim false isJsWs then jsSplitWs rest
      else [] :: jsSplitWs rest
    else
      match jsSplitWs rest with
      | [] => [[c]]
      | seg :: segs => (c :: seg) :: segs

/-- `s.split(sep)` of JavaScript for a single-character separator:
split at every occurrence, keeping empty fragments. -/
def jsSplitChar (sep : Char) : List Char → List (List Char)
  | [] => [[]]
  | c :: rest =>
    if c = sep then [] :: jsSplitChar sep rest
    else
      match jsSplitChar sep rest with
      | [] => [[c]]
      | seg :: segs => (c :: seg) :: segs

/-- Left-to-right worker for `text.split(/(?<=[.!?])\s+/)`.
`skipping = true` means we are inside a separator whitespace run;
otherwise `cur` holds the reversed current fragment.  A fragment ends
when the consumed character is `.`/`!`/`?` and the next one is
whitespace (the look-behind condition of the regex). -/
def splitSentM (skipping : Bool) (cur : List Char) : List Char → List (List Char)
  | [] => if skipping then [[]] else [cur.reverse]
  | c :: rest =>
    if skipping then
      if isJsWs c then splitSentM true [] rest
      else if isSentencePunct c ∧ (rest.head?.elim false isJsWs) then
        [c] :: splitSentM true [] rest
      else splitSentM false [c] rest
    else
      if isSentencePunct c ∧ (rest.head?.elim false isJsWs) then
        (cur.reverse ++ [c]) :: splitSentM true [] rest
      else splitSentM false (c :: cur) rest

/-- `text.split(/(?<=[.!?])\s+/)` of the trimmer: split at maximal
whitespace runs whose first character is directly preceded by `.`, `!`
or `?`. -/
def splitSentChars (l : List Char) : List (List Char) :=
  splitSentM false [] l

/-- `array.join(' ')` of JavaScript. -/
def joinSpace : List (List Char) → List Char
  | [] => []
  | [s] => s
  | s :: rest => s ++ ' ' :: joinSpace rest

/-- Does `l` start with `p` (used to implement `String.prototype.includes`)? -/
def listStartsWith : List Char → List Char → Bool
  | _, [] => true
  | [], _ :: _ => false
  | c :: rest, p :: ps => c = p ∧ listStartsWith rest ps

/-- `haystack.includes(needle)` of JavaScript. -/
def listContainsSub (hay needle : List Char) : Bool :=
  match hay with
  | [] => listStartsWith [] needle
  | c :: rest => listStartsWith (c :: rest) needle ∨ listContainsSub rest needle

/-- ASCII lowercasing, as `String.prototype.toLowerCase` acts on the
ASCII inputs this system handles. -/
def jsToLower (c : Char) : Char := c.toLower

/-- Lowercase a whole string. -/
def lowerChars (l : List Char) : List Char := l.map jsToLower

/-! ### Token-count lemmas -/

theorem countTokensGo_append_ws (c : Char) (hc : isJsWs c = true) :
    ∀ (a b : List Char) (s : Bool),
      countTokensGo (a ++ c :: b) s = countTokensGo a s + countTokensGo b false := by
  intro a
  induction a with
  | nil =>
    intro b s
    simp [countTokensGo, hc]
  | cons d a ih =>
    intro b s
    by_cases hd : isJsWs d
    · simp [countTokensGo, hd, ih]
    · simp [countTokensGo, hd, ih, Nat.add_assoc]

theorem countTokensGo_all_ws (a : List Char) (ha : ∀ c ∈ a, isJsWs c = true) :
    ∀ s : Bool, countTokensGo a s = 0 := by
  induction a with
  | nil => intro s; simp [countTokensGo]
  | cons d a ih =>
    intro s
    have hd : isJsWs d = true := ha d (by simp)
    simp [countTokensGo, hd, ih (fun c hc => ha c (by simp [hc]))]

theorem countTokensGo_leading_ws (a b : List Char) (ha : ∀ c ∈ a, isJsWs c = true) :
    countTokensGo (a ++ b) false = countTokensGo b false := by
  induction a with
  | nil => simp
  | cons d a ih =>
    have hd : isJsWs d = true := ha d (by simp)
    simp [countTokensGo, hd, ih (fun c hc => ha c (by simp [hc]))]

/-- Dropping leading whitespace does not change the token count. -/
theorem countTokens_dropWhile_ws (l : List Char) :
    countTokens (l.dropWhile isJsWs) = countTokens l := by
  unfold countTokens
  conv_rhs => rw [← List.takeWhile_append_dropWhile (p := isJsWs) (l := l)]
  rw [countTokensGo_leading_ws]
  intro c hc
  exact List.mem_takeWhile_imp hc

theorem countTokensGo_ws_suffix (a b : List Char) (hb : ∀ c ∈ b, isJsWs c = true) (s : Bool) :
    countTokensGo (a ++ b) s = countTokensGo a s := by
  induction a generalizing s with
  | nil => simpa using countTokensGo_all_ws b hb s
  | cons d a ih =>
    by_cases hd : isJsWs d
    · simp [countTokensGo, hd, ih]
    · simp [countTokensGo, hd, ih]

/-- Trimming does not change the token count. -/
theorem countTokens_trimChars (l : List Char) :
    countTokens (trimChars l) = countTokens l := by
  unfold trimChars
  rw [← countTokens_dropWhile_ws l]
  set m := l.dropWhile isJsWs with hm
  have : m = (m.reverse.dropWhile isJsWs).reverse ++ (m.reverse.takeWhile isJsWs).reverse := by
    rw [← List.reverse_append, List.takeWhile_append_dropWhile, List.reverse_reverse]
  conv_rhs => rw [this]
  unfold countTokens
  rw [countTokensGo_ws_suffix]
  intro c hc
  rw [List.mem_reverse] at hc
  exact List.mem_takeWhile_imp hc

theorem punct_not_ws {c : Char} (h : isSentencePunct c = true) : isJsWs c = false := by
  unfold isSentencePunct at h
  simp only [decide_eq_true_eq] at h
  rcases h with h | h | h <;> subst h <;> decide

/-- The head-dependent difference between starting the token counter
in-word and out-of-word. -/
def headTokenAdj (l : List Char) : Nat :=
  match l.head? with
  | none => 0
  | some c => if isJsWs c then 0 else 1

theorem countTokensGo_false_eq_true (l : List Char) :
    countTokensGo l false = countTokensGo l true + headTokenAdj l := by
  cases l with
  | nil => simp [countTokensGo, headTokenAdj]
  | cons c rest =>
    by_cases hc : isJsWs c
    · simp [countTokensGo, headTokenAdj, hc]
    · simp [countTokensGo, headTokenAdj, hc, Nat.add_comm]

theorem dropWhile_head_false {p : Char → Bool} :
    ∀ (l : List Char) {c rest}, List.dropWhile p l = c :: rest → p c = false := by
  intro l
  induction l with
  | nil => intro c rest h; simp [List.dropWhile] at h
  | cons d t ih =>
    intro c rest h
    by_cases hd : p d
    · rw [List.dropWhile_cons_of_pos hd] at h
      exact ih h
    · rw [List.dropWhile_cons_of_neg hd] at h
      cases h
      simpa using hd

/-! ### Sentence-split and whitespace-split accounting -/

theorem splitSentM_ne_nil : ∀ (l : List Char) (skipping : Bool) (cur : List Char),
    splitSentM skipping cur l ≠ [] := by
  intro l
  induction l with
  | nil => intro skipping cur; cases skipping <;> simp [splitSentM]
  | cons c rest ih =>
    intro skipping cur
    cases skipping with
    | true =>
      by_cases h1 : isJsWs c
      · simpa [splitSentM, h1] using ih true []
      · by_cases h2 : isSentencePunct c ∧ (rest.head?.elim false isJsWs)
        · simp [splitSentM, h1, h2]
        · simpa [splitSentM, h1, h2] using ih false [c]
    | false =>
      by_cases h2 : isSentencePunct c ∧ (rest.head?.elim false isJsWs)
      · simp [splitSentM, h2]
      · simpa [splitSentM, h2] using ih false (c :: cur)

theorem splitSentChars_ne_nil (l : List Char) : splitSentChars l ≠ [] :=
  splitSentM_ne_nil l false []

theorem sum_countTokens_splitSentM (l : List Char) :
    (∀ cur, ((splitSentM false cur l).map countTokens).sum
        = countTokens (cur.reverse ++ l)) ∧
    ((splitSentM true [] l).map countTokens).sum = countTokens l := by
  induction l with
  | nil =>
    constructor
    · intro cur; simp [splitSentM, countTokens, countTokensGo]
    · simp [splitSentM, countTokens, countTokensGo]
  | cons c rest ih =>
    have hsep_count : ∀ (a : List Char),
        isSentencePunct c = true → (rest.head?.elim false isJsWs) = true →
        countTokens (a ++ c :: rest) = countTokens (a ++ [c]) + countTokens rest := by
      intro a hp hw
      cases rest with
      | nil => simp at hw
      | cons w t =>
        have hwt : isJsWs w = true := by simpa using hw
        have h1 : a ++ c :: w :: t = (a ++ [c]) ++ w :: t := by simp
        unfold countTokens
        rw [h1, countTokensGo_append_ws w hwt]
        have : countTokensGo (w :: t) false = countTokensGo t false := by
          simp [countTokensGo, hwt]
        rw [this]
    constructor
    · intro cur
      by_cases h2 : isSentencePunct c ∧ (rest.head?.elim false isJsWs)
      · have heq : splitSentM false cur (c :: rest)
            = (cur.reverse ++ [c]) :: splitSentM true [] rest := by
          simp [splitSentM, h2]
        rw [heq, List.map_cons, List.sum_cons, ih.2]
        exact (hsep_count cur.reverse (by exact_mod_cast h2.1) (by exact_mod_cast h2.2)).symm
      · have heq : splitSentM false cur (c :: rest)
            = splitSentM false (c :: cur) rest := by
          simp [splitSentM, h2]
        rw [heq, ih.1 (c :: cur)]
        simp
    · by_cases h1 : isJsWs c
      · have heq : splitSentM true [] (c :: rest) = splitSentM true [] rest := by
          simp [splitSentM, h1]
        rw [heq, ih.2]
        simp [countTokens, countTokensGo, h1]
      · by_cases h2 : isSentencePunct c ∧ (rest.head?.elim false isJsWs)
        · have heq : splitSentM true [] (c :: rest) = [c] :: splitSentM true [] rest := by
            simp [splitSentM, h1, h2]
          rw [heq, List.map_cons, List.sum_cons, ih.2]
          have := hsep_count [] (by exact_mod_cast h2.1) (by exact_mod_cast h2.2)
          simpa using this.symm
        · have heq : splitSentM true [] (c :: rest) = splitSentM false [c] rest := by
            simp [splitSentM, h1, h2]
          rw [heq, ih.1 [c]]
          simp

/-- Splitting at sentence boundaries partitions the word count. -/
theorem sum_countTokens_splitSentChars (l : List Char) :
    ((splitSentChars l).map countTokens).sum = countTokens l := by
  have h := (sum_countTokens_splitSentM l).1 []
  simpa [splitSentChars] using h

/-- Joining fragments with single spaces adds up the word counts. -/
theorem countTokens_joinSpace (l : List (List Char)) :
    countTokens (joinSpace l) = (l.map countTokens).sum := by
  induction l with
  | nil => simp [joinSpace, countTokens, countTokensGo]
  | cons s rest ih =>
    cases rest with
    | nil => simp [joinSpace]
    | cons t r =>
      show countTokens (s ++ ' ' :: joinSpace (t :: r)) = _
      have h2 : countTokens (s ++ ' ' :: joinSpace (t :: r))
          = countTokens s + countTokens (joinSpace (t :: r)) :=
        countTokensGo_append_ws ' ' (by decide) s (joinSpace (t :: r)) false
      rw [h2, ih]
      simp

/-- Dropping blank fragments does not change the summed word count. -/
theorem sum_countTokens_filter_blank (l : List (List Char)) :
    ((l.filter (fun p => !(trimChars p).isEmpty)).map countTokens).sum
      = (l.map countTokens).sum := by
  induction l with
  | nil => simp
  | cons s rest ih =>
    by_cases hs : (trimChars s).isEmpty
    · have hz : countTokens s = 0 := by
        rw [← countTokens_trimChars s]
        rw [List.isEmpty_iff] at hs
        rw [hs]; rfl
      simp [List.filter_cons, hs, ih, hz]
    · simp [List.filter_cons, hs, ih]

theorem jsSplitWs_ne_nil (l : List Char) : jsSplitWs l ≠ [] := by
  cases l with
  | nil => simp [jsSplitWs]
  | cons c rest =>
    rw [jsSplitWs]
    by_cases h : isJsWs c
    · by_cases h2 : rest.head?.elim false isJsWs
      · cases rest with
        | nil => simp at h2
        | cons w t =>
          simp only [h, if_true, h2, if_true]
          exact jsSplitWs_ne_nil (w :: t)
      · simp [h, h2]
    · simp only [h]
      cases jsSplitWs rest <;> simp

/-- The head-dependent fragment-count adjustment for `jsSplitWs`. -/
def headSegAdj (l : List Char) : Nat :=
  match l.head? with
  | none => 1
  | some c => if isJsWs c then 1 else 0

theorem headSegAdj_add_headTokenAdj (l : List Char) :
    headSegAdj l + headTokenAdj l = 1 := by
  cases l with
  | nil => rfl
  | cons c rest =>
    by_cases hc : isJsWs c <;> simp [headSegAdj, headTokenAdj, hc]

/-- For a string with no trailing whitespace, `split(/\s+/).length` counts
the words, plus one artefact fragment when the string starts with
whitespace or is empty. -/
theorem length_jsSplitWs (l : List Char)
    (htail : ∀ c, l.getLast? = some c → isJsWs c = false) :
    (jsSplitWs l).length = countTokens l + headSegAdj l := by
  induction l with
  | nil => simp [jsSplitWs, countTokens, countTokensGo, headSegAdj]
  | cons c rest ih =>
    have htail2 : ∀ d, rest.getLast? = some d → isJsWs d = false := by
      intro d hd
      apply htail d
      cases rest with
      | nil => simp at hd
      | cons w t => rw [List.getLast?_cons_cons]; exact hd
    rw [jsSplitWs]
    by_cases hc : isJsWs c
    · rw [if_pos hc]
      cases rest with
      | nil =>
        exfalso
        have := htail c rfl
        rw [hc] at this
        exact absurd this (by simp)
      | cons w t =>
        by_cases hw : isJsWs w
        · simp only [List.head?_cons, Option.elim, hw, if_true]
          rw [ih htail2]
          have h1 : countTokens (c :: w :: t) = countTokens (w :: t) := by
            simp [countTokens, countTokensGo, hc]
          simp [h1, headSegAdj, hc, hw]
        · have hcond : ((w :: t).head?.elim false isJsWs) = false := by simp [hw]
          rw [hcond, if_neg (by simp)]
          simp only [List.length_cons]
          rw [ih htail2]
          have h1 : countTokens (c :: w :: t) = countTokens (w :: t) := by
            simp [countTokens, countTokensGo, hc]
          simp [h1, headSegAdj, hc, hw]
    · rw [if_neg hc]
      cases hsp : jsSplitWs rest with
      | nil => exact absurd hsp (jsSplitWs_ne_nil rest)
      | cons seg segs =>
        have hih := ih htail2
        rw [hsp] at hih
        have hd := countTokensGo_false_eq_true rest
        have hs := headSegAdj_add_headTokenAdj rest
        have hctc : countTokens (c :: rest) = 1 + countTokensGo rest true := by
          simp [countTokens, countTokensGo, hc]
        have hha : headSegAdj (c :: rest) = 0 := by simp [headSegAdj, hc]
        have hu : countTokens rest = countTokensGo rest false := rfl
        simp only [List.length_cons, hctc, hha] at hih ⊢
        omega

theorem trimChars_getLast_not_ws (l : List Char) :
    ∀ c, (trimChars l).getLast? = some c → isJsWs c = false := by
  intro c hc
  unfold trimChars at hc
  rw [List.getLast?_reverse] at hc
  cases hm : List.dropWhile isJsWs (l.dropWhile isJsWs).reverse with
  | nil => rw [hm] at hc; simp at hc
  | cons d t =>
    rw [hm] at hc
    simp only [List.head?_cons, Option.some_inj] at hc
    subst hc
    exact dropWhile_head_false _ hm

theorem trimChars_head_not_ws (l : List Char) :
    ∀ c, (trimChars l).head? = some c → isJsWs c = false := by
  intro c hc
  have hpre : trimChars l <+: l.dropWhile isJsWs := by
    unfold trimChars
    have hsuf : (l.dropWhile isJsWs).reverse.dropWhile isJsWs <:+ (l.dropWhile isJsWs).reverse :=
      List.dropWhile_suffix isJsWs
    simpa using hsuf.reverse
  obtain ⟨tail, htail⟩ := hpre
  cases hm : trimChars l with
  | nil => rw [hm] at hc; simp at hc
  | cons d t =>
    rw [hm] at hc
    simp only [List.head?_cons, Option.some_inj] at hc
    subst hc
    rw [hm] at htail
    have hx : List.dropWhile isJsWs l = d :: (t ++ tail) := by rw [← htail]; simp
    exact dropWhile_head_false l hx

/-- Bridge: for a string whose trim is non-empty, the literal
`value.trim().split(/\s+/).length` equals its word count. -/
theorem length_jsSplitWs_trim (s : List Char) (h : ¬trimChars s = []) :
    (jsSplitWs (trimChars s)).length = countTokens s := by
  have h1 := length_jsSplitWs (trimChars s) (trimChars_getLast_not_ws s)
  have h2 : headSegAdj (trimChars s) = 0 := by
    cases hm : trimChars s with
    | nil => exact absurd hm h
    | cons d t =>
      have : isJsWs d = false := trimChars_head_not_ws s d (by rw [hm]; rfl)
      simp [headSegAdj, this]
  rw [h1, h2, countTokens_trimChars s]
  simp

/-! ## JavaScript values

`JSValue` models the JavaScript values that flow through the cache and
the section maps: `null`/`undefined` (collapsed to `null`; the code never
distinguishes them), booleans, numbers, strings, arrays and plain
objects. -/

inductive JSValue where
  | null : JSValue
  | bool : Bool → JSValue
  | num : ℚ → JSValue
  | str : List Char → JSValue
  | arr : List JSValue → JSValue
  | obj : List (String × JSValue) → JSValue

/-- JavaScript truthiness (`NaN` does not occur as a stored `num`). -/
def jsTruthy : JSValue → Bool
  | .null => false
  | .bool b => b
  | .num q => decide (q ≠ 0)
  | .str s => decide (s ≠ [])
  | .arr _ => true
  | .obj _ => true

/-- The `typeof` operator restricted to the modelled values. -/
def jsTypeof : JSValue → String
  | .null => "object"
  | .bool _ => "boolean"
  | .num _ => "number"
  | .str _ => "string"
  | .arr _ => "object"
  | .obj _ => "object"

/-- `Array.isArray`. -/
def jsIsArray : JSValue → Bool
  | .arr _ => true
  | _ => false

/-! ## The content trimmer (`wordCountValidator`, `server/pipeline.ts`)

A section map (`coverLetterData`) is a JavaScript object, modelled as an
insertion-ordered association list. -/

/-- An ordered JavaScript object: the cover letter's section map. -/
abbrev SectionMap : Type := List (String × JSValue)

/-- Property read `m[f]`. -/
def lookupField : SectionMap → String → Option JSValue
  | [], _ => none
  | (k, v) :: rest, f => if k = f then some v else lookupField rest f

/-- Property write `m[f] = nv` for a key already present (writes to
absent keys do not occur in the trimmer: every write is guarded by a
truthiness read of the same key). -/
def updateField : SectionMap → String → JSValue → SectionMap
  | [], _, _ => []
  | (k, v) :: rest, f, nv =>
    if k = f then (k, nv) :: rest else (k, v) :: updateField rest f nv

/-- One field's contribution to the word total: strings with a truthy
trim contribute `value.trim().split(/\s+/).length`, everything else 0. -/
def fieldWordCount : JSValue → Nat
  | .str s => if trimChars s = [] then 0 else (jsSplitWs (trimChars s)).length
  | _ => 0

/-- `totalWords`: the word count summed over all fields. -/
def totalWordsOf (m : SectionMap) : Nat :=
  (m.map (fun kv => fieldWordCount kv.2)).sum

/-- The priority order in which pass 1 trims sections, least important
first (`trimOrder` in the source). -/
def trimOrder : List String :=
  ["PublicSectorInterestParagraph",
   "WhyCompanySentence",
   "ValueProp4Details",
   "ValueProp3Details",
   "LeadershipParagraph",
   "ValueProp2Details",
   "ValueProp1Details",
   "AlignmentParagraph",
   "ClosingParagraph"]

/-- The sentence list of a field in pass 1:
`text.split(/(?<=[.!?])\s+/).filter(s => s.trim())` over the trimmed text. -/
def fieldSentences (s : List Char) : List (List Char) :=
  (splitSentChars (trimChars s)).filter (fun x => !(trimChars x).isEmpty)

/-- The word count the code attributes to one removed sentence:
`removedSentence.trim().split(/\s+/).length`. -/
def removedWordCount (removed : List Char) : Nat :=
  (jsSplitWs (trimChars removed)).length

/-- The inner `while` loop of pass 1: pop whole trailing sentences while
more than one remains and the running total still exceeds the budget.
`text` is the value the field currently holds (reassigned on every
truthy pop).  `fuel` bounds the iteration count; the caller passes the
sentence count, which the loop can never exceed since every iteration
shortens the list. -/
def trimPopSentences (mx : Int) : Nat → List (List Char) → Int → List Char → Int × List Char
  | 0, _, c, text => (c, text)
  | fuel + 1, sents, c, text =>
    if 1 < sents.length ∧ mx < c then
      match sents.getLast? with
      | some removed =>
        let rest := sents.dropLast
        if removed = [] then
          trimPopSentences mx fuel rest c text
        else
          trimPopSentences mx fuel rest (c - (removedWordCount removed : Int)) (joinSpace rest)
      | none => (c, text)
    else (c, text)

/-- Pass 1 (`for (const field of trimOrder)`): sentence-level trimming in
priority order, stopping once the running total is within budget. -/
def trimFirstPass (mx : Int) : List String → SectionMap → Int → SectionMap × Int
  | [], m, c => (m, c)
  | f :: fs, m, c =>
    if c ≤ mx then (m, c)
    else
      match lookupField m f with
      | some (JSValue.str s) =>
        if s = [] then trimFirstPass mx fs m c
        else
          let sents := fieldSentences s
          if 1 < sents.length then
            let r := trimPopSentences mx sents.length sents c s
            trimFirstPass mx fs (updateField m f (JSValue.str r.2)) r.1
          else trimFirstPass mx fs m c
      | some _ => trimFirstPass mx fs m c
      | none => trimFirstPass mx fs m c

/-- Pass 2, collection step, one field: a string field with truthy trim
contributes its sentences (split on the raw value) tagged with the field
name and their word count; any other field contributes nothing. -/
def entrySentences (k : String) : JSValue → List (String × List Char × Nat)
  | JSValue.str s =>
    if trimChars s = [] then []
    else ((splitSentChars s).filter (fun x => !(trimChars x).isEmpty)).map
      (fun x => (k, x, (jsSplitWs (trimChars x)).length))
  | _ => []

/-- Pass 2, collection step: every field's sentences in map order. -/
def collectSentences : SectionMap → List (String × List Char × Nat)
  | [] => []
  | (k, v) :: rest => entrySentences k v ++ collectSentences rest

/-- Pass 2, cutoff scan: number of leading sentences whose cumulative
word count stays within budget, and that cumulative total. -/
def cutoffScan (mx : Int) : List (String × List Char × Nat) → Nat → Nat × Nat
  | [], running => (0, running)
  | e :: rest, running =>
    if mx < ((running + e.2.2 : Nat) : Int) then (0, running)
    else
      let r := cutoffScan mx rest (running + e.2.2)
      (r.1 + 1, r.2)

/-- Pass 2, rebuild initialisation: `finalData[key] = ''` for every key. -/
def rebuildInit (m : SectionMap) : SectionMap :=
  m.map (fun kv => (kv.1, JSValue.str []))

/-- Pass 2, appending one retained sentence to its field
(`finalData[f] += ' ' + text` with the truthiness guard). -/
def rebuildAdd (m : SectionMap) (f : String) (text : List Char) : SectionMap :=
  match lookupField m f with
  | some (JSValue.str cur) =>
    if cur = [] then updateField m f (JSValue.str text)
    else updateField m f (JSValue.str (cur ++ ' ' :: text))
  | _ => m

/-- Pass 2, rebuilding from the retained sentences in order. -/
def rebuildAll (kept : List (String × List Char × Nat)) (m : SectionMap) : SectionMap :=
  kept.foldl (fun acc e => rebuildAdd acc e.1 e.2.1) m

/-- Pass 2, cleanup: trim every string field. -/
def cleanupFields (m : SectionMap) : SectionMap :=
  m.map (fun kv =>
    match kv.2 with
    | JSValue.str s => (kv.1, JSValue.str (trimChars s))
    | v => (kv.1, v))

/-- Pass 2 (global sentence-aware truncation): flatten, cut off at the
budget, rebuild each field from its retained sentences. -/
def trimSecondPass (mx : Int) (m : SectionMap) : SectionMap × Nat :=
  let all := collectSentences m
  let r := cutoffScan mx all 0
  (cleanupFields (rebuildAll (all.take r.1) (rebuildInit m)), r.2)

/-- `wordCountValidator(coverLetterData, maxWords)`: return the input
unchanged when within budget, otherwise apply pass 1 and, if still over
budget, pass 2. -/
def wordCountValidator (m : SectionMap) (mx : Int) : SectionMap :=
  let totalWords := totalWordsOf m
  if (totalWords : Int) ≤ mx then m
  else
    let r := trimFirstPass mx trimOrder m (totalWords : Int)
    if mx < r.2 then (trimSecondPass mx r.1).1 else r.1

/-! ### Trimmer accounting lemmas -/

/-- Ghost word count of one field (equal to `fieldWordCount`). -/
def strTok : JSValue → Nat
  | .str s => countTokens s
  | _ => 0

/-- Ghost word total (equal to `totalWordsOf`). -/
def totalTok (m : SectionMap) : Nat :=
  (m.map (fun kv => strTok kv.2)).sum

/-- The (ordered) key list of a section map. -/
def mapKeys (m : SectionMap) : List String :=
  m.map Prod.fst

/-- Every value of the map is a string. -/
def allStrFields (m : SectionMap) : Prop :=
  ∀ kv ∈ m, ∃ s, kv.2 = JSValue.str s

theorem fieldWordCount_eq_strTok (v : JSValue) : fieldWordCount v = strTok v := by
  cases v with
  | str s =>
    show (if trimChars s = [] then 0 else (jsSplitWs (trimChars s)).length) = countTokens s
    by_cases h : trimChars s = []
    · rw [if_pos h, ← countTokens_trimChars s, h]
      rfl
    · rw [if_neg h, length_jsSplitWs_trim s h]
  | null => rfl
  | bool b => rfl
  | num q => rfl
  | arr a => rfl
  | obj o => rfl

theorem totalWordsOf_eq_totalTok (m : SectionMap) : totalWordsOf m = totalTok m := by
  unfold totalWordsOf totalTok
  congr 1
  exact List.map_congr_left (fun kv _ => fieldWordCount_eq_strTok kv.2)

theorem totalTok_updateField (m : SectionMap) (f : String) (v0 v1 : JSValue)
    (h : lookupField m f = some v0) :
    totalTok (updateField m f v1) + strTok v0 = totalTok m + strTok v1 := by
  induction m with
  | nil => simp [lookupField] at h
  | cons kv rest ih =>
    obtain ⟨k, v⟩ := kv
    by_cases hk : k = f
    · rw [lookupField, if_pos hk] at h
      cases h
      unfold updateField
      rw [if_pos hk]
      simp [totalTok]
      omega
    · rw [lookupField, if_neg hk] at h
      unfold updateField
      rw [if_neg hk]
      have := ih h
      simp only [totalTok, List.map_cons, List.sum_cons] at this ⊢
      omega

theorem mapKeys_updateField (m : SectionMap) (f : String) (v : JSValue) :
    mapKeys (updateField m f v) = mapKeys m := by
  induction m with
  | nil => rfl
  | cons kv rest ih =>
    unfold updateField
    by_cases hk : kv.1 = f
    · rw [if_pos hk]; rfl
    · rw [if_neg hk]
      simp only [mapKeys, List.map_cons] at ih ⊢
      rw [ih]

theorem sum_map_le_of_prefix {α : Type} (g : α → Nat) {l1 l2 : List α} (h : l1 <+: l2) :
    (l1.map g).sum ≤ (l2.map g).sum := by
  obtain ⟨t, ht⟩ := h
  subst ht
  simp

theorem fieldSentences_sum (s : List Char) :
    ((fieldSentences s).map countTokens).sum = countTokens s := by
  unfold fieldSentences
  rw [sum_countTokens_filter_blank, sum_countTokens_splitSentChars, countTokens_trimChars]

theorem fieldSentences_nonblank {s p : List Char} (h : p ∈ fieldSentences s) :
    trimChars p ≠ [] := by
  unfold fieldSentences at h
  have := List.of_mem_filter h
  simpa [List.isEmpty_iff] using this

/-- Specification of the pass-1 pop loop: either it does nothing, or it
pops a non-empty suffix of sentences, decrementing the running count by
exactly the words it removed and leaving the field as the join of the
retained prefix. -/
theorem trimPopSentences_spec (mx : Int) :
    ∀ (fuel : Nat) (sents : List (List Char)) (c : Int) (text : List Char),
      (∀ p ∈ sents, trimChars p ≠ []) →
      sents.length ≤ fuel + 1 →
      trimPopSentences mx fuel sents c text = (c, text) ∨
      (∃ rest, rest ≠ [] ∧ rest.length < sents.length ∧ rest <+: sents ∧
        trimPopSentences mx fuel sents c text =
          (c - (((sents.map countTokens).sum : Int) - ((rest.map countTokens).sum : Int)),
           joinSpace rest)) := by
  intro fuel
  induction fuel with
  | zero =>
    intro sents c text _ _
    left
    rfl
  | succ fuel ih =>
    intro sents c text hblank hlen
    rw [trimPopSentences]
    by_cases hcond : 1 < sents.length ∧ mx < c
    · rw [if_pos hcond]
      have hne : sents ≠ [] := by
        intro h; rw [h] at hcond; simp at hcond
      obtain ⟨last, hlast⟩ : ∃ a, sents.getLast? = some a :=
        ⟨sents.getLast hne, List.getLast?_eq_getLast_of_ne_nil hne⟩
      have hdecomp : sents.dropLast ++ [last] = sents :=
        List.dropLast_append_getLast? last hlast
      have hmem : last ∈ sents := by
        rw [← hdecomp]; simp
      have hlastblank : trimChars last ≠ [] := hblank last hmem
      have hlastne : last ≠ [] := by
        intro h; rw [h] at hlastblank; exact hlastblank rfl
      rw [hlast]
      simp only [hlastne, if_neg (by exact hlastne)]
      set rest := sents.dropLast with hrest
      have hld : rest.length = sents.length - 1 := by
        rw [hrest]; exact List.length_dropLast sents
      have hrestblank : ∀ p ∈ rest, trimChars p ≠ [] := by
        intro p hp
        exact hblank p ((List.dropLast_prefix sents).subset hp)
      have hrestlen : rest.length ≤ fuel + 1 := by omega
      have hrestlt : rest.length < sents.length := by
        have h2 : 1 < sents.length := hcond.1
        omega
      have hrestne : rest ≠ [] := by
        have h2 : 1 < sents.length := hcond.1
        intro h
        rw [h] at hld
        simp only [List.length_nil] at hld
        omega
      have hsum : (sents.map countTokens).sum
          = (rest.map countTokens).sum + countTokens last := by
        conv_lhs => rw [← hdecomp]
        simp
      have hword : removedWordCount last = countTokens last := by
        unfold removedWordCount
        exact length_jsSplitWs_trim last hlastblank
      rcases ih rest (c - (removedWordCount last : Int)) (joinSpace rest)
          hrestblank hrestlen with h0 | ⟨rest2, h2ne, h2lt, h2pre, h2eq⟩
      · right
        refine ⟨rest, hrestne, hrestlt, List.dropLast_prefix sents, ?_⟩
        rw [h0, hword]
        push_cast [hsum]
        ring_nf
      · right
        refine ⟨rest2, h2ne, by omega, h2pre.trans (List.dropLast_prefix sents), ?_⟩
        rw [h2eq, hword]
        push_cast [hsum]
        ring_nf
    · rw [if_neg hcond]
      left
      rfl

/-- Specification of pass 1: it maintains the running count equal to the
actual word total and never increases it. -/
theorem trimFirstPass_spec (mx : Int) :
    ∀ (fs : List String) (m : SectionMap) (c : Int),
      c = (totalTok m : Int) →
      (trimFirstPass mx fs m c).2 = (totalTok (trimFirstPass mx fs m c).1 : Int) ∧
      (trimFirstPass mx fs m c).2 ≤ c := by
  intro fs
  induction fs with
  | nil =>
    intro m c hc
    exact ⟨hc, le_refl c⟩
  | cons f fs ih =>
    intro m c hc
    rw [trimFirstPass]
    by_cases hle : c ≤ mx
    · rw [if_pos hle]
      exact ⟨hc, le_refl c⟩
    · rw [if_neg hle]
      cases hlook : lookupField m f with
      | none => exact ih m c hc
      | some v =>
        cases v with
        | str s =>
          dsimp only
          by_cases hs : s = []
          · rw [if_pos hs]
            exact ih m c hc
          · rw [if_neg hs]
            by_cases hlen : 1 < (fieldSentences s).length
            · rw [if_pos hlen]
              have hblank : ∀ p ∈ fieldSentences s, trimChars p ≠ [] :=
                fun p hp => fieldSentences_nonblank hp
              have hsents_sum : ((fieldSentences s).map countTokens).sum = countTokens s :=
                fieldSentences_sum s
              rcases trimPopSentences_spec mx (fieldSentences s).length
                  (fieldSentences s) c s hblank (by omega) with h0 | ⟨rest, _, _, hpre, heq⟩
              · rw [h0]
                have hupd := totalTok_updateField m f (JSValue.str s) (JSValue.str s) hlook
                have htot : totalTok (updateField m f (JSValue.str s)) = totalTok m := by
                  omega
                have := ih (updateField m f (JSValue.str s)) c (by rw [htot]; exact hc)
                exact this
              · rw [heq]
                have hjoin : countTokens (joinSpace rest) = (rest.map countTokens).sum :=
                  countTokens_joinSpace rest
                have hupd := totalTok_updateField m f (JSValue.str s)
                  (JSValue.str (joinSpace rest)) hlook
                have hrle : (rest.map countTokens).sum ≤ ((fieldSentences s).map countTokens).sum :=
                  sum_map_le_of_prefix countTokens hpre
                have hupd2 : totalTok (updateField m f (JSValue.str (joinSpace rest)))
                      + countTokens s
                    = totalTok m + (rest.map countTokens).sum := by
                  have h1 : strTok (JSValue.str s) = countTokens s := rfl
                  have h2 : strTok (JSValue.str (joinSpace rest))
                      = (rest.map countTokens).sum := by
                    show countTokens (joinSpace rest) = _
                    exact countTokens_joinSpace rest
                  rw [h1, h2] at hupd
                  exact hupd
                have hc2 : c - (((fieldSentences s).map countTokens).sum : Int)
                      + ((rest.map countTokens).sum : Int)
                    = (totalTok (updateField m f (JSValue.str (joinSpace rest))) : Int) := by
                  rw [hc, hsents_sum]
                  omega
                have hstep := ih (updateField m f (JSValue.str (joinSpace rest)))
                  (c - ((((fieldSentences s).map countTokens).sum : Int)
                    - ((rest.map countTokens).sum : Int)))
                  (by rw [← hc2]; ring)
                refine ⟨hstep.1, le_trans hstep.2 ?_⟩
                rw [hsents_sum] at hrle ⊢
                omega
            · rw [if_neg hlen]
              exact ih m c hc
        | null => exact ih m c hc
        | bool b => exact ih m c hc
        | num q => exact ih m c hc
        | arr a => exact ih m c hc
        | obj o => exact ih m c hc

theorem entrySentences_sum (k : String) (v : JSValue) :
    ((entrySentences k v).map (fun e => e.2.2)).sum = strTok v := by
  cases v with
  | str s =>
    rw [show entrySentences k (JSValue.str s)
        = (if trimChars s = [] then [] else ((splitSentChars s).filter
            (fun x => !(trimChars x).isEmpty)).map
            (fun x => (k, x, (jsSplitWs (trimChars x)).length))) from rfl]
    show _ = countTokens s
    by_cases h : trimChars s = []
    · have h0 : countTokens s = 0 := by
        rw [← countTokens_trimChars s, h]; rfl
      rw [if_pos h, h0]
      rfl
    · rw [if_neg h, List.map_map]
      have hmapeq :
          ((splitSentChars s).filter (fun x => !(trimChars x).isEmpty)).map
            ((fun e => e.2.2) ∘ (fun x => ((k, x, (jsSplitWs (trimChars x)).length) : String × List Char × Nat)))
          = ((splitSentChars s).filter (fun x => !(trimChars x).isEmpty)).map countTokens := by
        apply List.map_congr_left
        intro x hx
        have hxb : trimChars x ≠ [] := by
          have := List.of_mem_filter hx
          simpa [List.isEmpty_iff] using this
        exact length_jsSplitWs_trim x hxb
      rw [hmapeq, sum_countTokens_filter_blank, sum_countTokens_splitSentChars]
  | null => rfl
  | bool b => rfl
  | num q => rfl
  | arr a => rfl
  | obj o => rfl

theorem entrySentences_mem (k : String) (v : JSValue) {e : String × List Char × Nat}
    (h : e ∈ entrySentences k v) :
    e.1 = k ∧ trimChars e.2.1 ≠ [] ∧ e.2.2 = countTokens e.2.1 := by
  cases v with
  | str s =>
    rw [show entrySentences k (JSValue.str s)
        = (if trimChars s = [] then [] else ((splitSentChars s).filter
            (fun x => !(trimChars x).isEmpty)).map
            (fun x => (k, x, (jsSplitWs (trimChars x)).length))) from rfl] at h
    by_cases ht : trimChars s = []
    · rw [if_pos ht] at h; simp at h
    · rw [if_neg ht, List.mem_map] at h
      obtain ⟨x, hx, hxe⟩ := h
      have hxb : trimChars x ≠ [] := by
        have := List.of_mem_filter hx
        simpa [List.isEmpty_iff] using this
      subst hxe
      exact ⟨rfl, hxb, length_jsSplitWs_trim x hxb⟩
  | null => simp [entrySentences] at h
  | bool b => simp [entrySentences] at h
  | num q => simp [entrySentences] at h
  | arr a => simp [entrySentences] at h
  | obj o => simp [entrySentences] at h

theorem collectSentences_sum (m : SectionMap) :
    ((collectSentences m).map (fun e => e.2.2)).sum = totalTok m := by
  induction m with
  | nil => rfl
  | cons kv rest ih =>
    obtain ⟨k, v⟩ := kv
    rw [collectSentences, List.map_append, List.sum_append, ih, entrySentences_sum]
    simp [totalTok]

theorem collectSentences_mem :
    ∀ (m : SectionMap) {e : String × List Char × Nat}, e ∈ collectSentences m →
      e.1 ∈ mapKeys m ∧ trimChars e.2.1 ≠ [] ∧ e.2.2 = countTokens e.2.1 := by
  intro m
  induction m with
  | nil => intro e h; simp [collectSentences] at h
  | cons kv rest ih =>
    intro e h
    obtain ⟨k, v⟩ := kv
    rw [collectSentences, List.mem_append] at h
    rcases h with h | h
    · have := entrySentences_mem k v h
      exact ⟨by simp [mapKeys, this.1], this.2⟩
    · have := ih h
      exact ⟨by simp [mapKeys] at this ⊢; tauto, this.2⟩

theorem cutoffScan_spec (mx : Int) :
    ∀ (l : List (String × List Char × Nat)) (running : Nat),
      (cutoffScan mx l running).2
          = running + ((l.take (cutoffScan mx l running).1).map (fun e => e.2.2)).sum ∧
      ((running : Int) ≤ mx → ((cutoffScan mx l running).2 : Int) ≤ mx) ∧
      (cutoffScan mx l running).1 ≤ l.length := by
  intro l
  induction l with
  | nil =>
    intro running
    exact ⟨by simp [cutoffScan], fun h => by simpa [cutoffScan] using h, by simp [cutoffScan]⟩
  | cons e rest ih =>
    intro running
    rw [cutoffScan]
    by_cases h : mx < ((running + e.2.2 : Nat) : Int)
    · rw [if_pos h]
      exact ⟨by simp, fun hr => by simpa using hr, by simp⟩
    · rw [if_neg h]
      have := ih (running + e.2.2)
      refine ⟨?_, fun _ => this.2.1 (by omega), by simpa using Nat.succ_le_succ this.2.2⟩
      rw [List.take_succ_cons, List.map_cons, List.sum_cons]
      rw [this.1]
      omega

theorem lookupField_allStr {m : SectionMap} (hall : allStrFields m) {f : String}
    (hf : f ∈ mapKeys m) :
    ∃ s, lookupField m f = some (JSValue.str s) := by
  induction m with
  | nil => simp [mapKeys] at hf
  | cons kv rest ih =>
    by_cases hk : kv.1 = f
    · obtain ⟨s, hs⟩ := hall kv (by simp)
      refine ⟨s, ?_⟩
      rw [show lookupField (kv :: rest) f = if kv.1 = f then some kv.2 else lookupField rest f
        from rfl, if_pos hk, hs]
    · have hf2 : f ∈ mapKeys rest := by
        simp only [mapKeys, List.map_cons, List.mem_cons] at hf
        tauto
      obtain ⟨s, hs⟩ := ih (fun kv2 h2 => hall kv2 (by simp [h2])) hf2
      refine ⟨s, ?_⟩
      rw [show lookupField (kv :: rest) f = if kv.1 = f then some kv.2 else lookupField rest f
        from rfl, if_neg hk, hs]

theorem allStr_updateField {m : SectionMap} (hall : allStrFields m) (f : String) (s : List Char) :
    allStrFields (updateField m f (JSValue.str s)) := by
  induction m with
  | nil => intro kv h; simp [updateField] at h
  | cons kv0 rest ih =>
    intro kv h
    obtain ⟨k0, v0⟩ := kv0
    rw [updateField] at h
    by_cases hk : k0 = f
    · rw [if_pos hk] at h
      rcases List.mem_cons.mp h with h | h
      · exact ⟨s, by rw [h]⟩
      · exact hall kv (by simp [h])
    · rw [if_neg hk] at h
      rcases List.mem_cons.mp h with h | h
      · exact hall kv (by rw [h]; simp)
      · exact ih (fun kv2 h2 => hall kv2 (by simp [h2])) kv h

theorem rebuildAdd_spec {m : SectionMap} (hall : allStrFields m) {f : String}
    (hf : f ∈ mapKeys m) (text : List Char) :
    totalTok (rebuildAdd m f text) = totalTok m + countTokens text ∧
    mapKeys (rebuildAdd m f text) = mapKeys m ∧
    allStrFields (rebuildAdd m f text) := by
  obtain ⟨cur, hcur⟩ := lookupField_allStr hall hf
  rw [rebuildAdd, hcur]
  dsimp only
  by_cases hc : cur = []
  · rw [if_pos hc]
    have hupd := totalTok_updateField m f (JSValue.str cur) (JSValue.str text) hcur
    have h0 : strTok (JSValue.str cur) = 0 := by rw [hc]; rfl
    refine ⟨?_, mapKeys_updateField m f _, allStr_updateField hall f text⟩
    rw [h0] at hupd
    show totalTok (updateField m f (JSValue.str text)) = totalTok m + countTokens text
    have : strTok (JSValue.str text) = countTokens text := rfl
    omega
  · rw [if_neg hc]
    have hupd := totalTok_updateField m f (JSValue.str cur)
      (JSValue.str (cur ++ ' ' :: text)) hcur
    have happ : strTok (JSValue.str (cur ++ ' ' :: text))
        = countTokens cur + countTokens text :=
      countTokensGo_append_ws ' ' (by decide) cur text false
    refine ⟨?_, mapKeys_updateField m f _, allStr_updateField hall f _⟩
    have h1 : strTok (JSValue.str cur) = countTokens cur := rfl
    rw [happ, h1] at hupd
    omega

theorem rebuildAll_spec :
    ∀ (kept : List (String × List Char × Nat)) (m : SectionMap),
      allStrFields m → (∀ e ∈ kept, e.1 ∈ mapKeys m) →
      totalTok (rebuildAll kept m)
          = totalTok m + (kept.map (fun e => countTokens e.2.1)).sum ∧
      mapKeys (rebuildAll kept m) = mapKeys m ∧
      allStrFields (rebuildAll kept m) := by
  intro kept
  induction kept with
  | nil => intro m hall _; exact ⟨by simp [rebuildAll], rfl, hall⟩
  | cons e rest ih =>
    intro m hall hkeys
    have hstep := rebuildAdd_spec hall (hkeys e (by simp)) e.2.1
    have hrest : ∀ e2 ∈ rest, e2.1 ∈ mapKeys (rebuildAdd m e.1 e.2.1) := by
      intro e2 h2
      rw [hstep.2.1]
      exact hkeys e2 (by simp [h2])
    have := ih (rebuildAdd m e.1 e.2.1) hstep.2.2 hrest
    rw [show rebuildAll (e :: rest) m = rebuildAll rest (rebuildAdd m e.1 e.2.1) from rfl]
    refine ⟨?_, by rw [this.2.1, hstep.2.1], this.2.2⟩
    rw [this.1, hstep.1, List.map_cons, List.sum_cons]
    omega

theorem rebuildInit_spec (m : SectionMap) :
    totalTok (rebuildInit m) = 0 ∧
    mapKeys (rebuildInit m) = mapKeys m ∧
    allStrFields (rebuildInit m) := by
  refine ⟨?_, ?_, ?_⟩
  · induction m with
    | nil => rfl
    | cons kv rest ih =>
      simp only [rebuildInit, totalTok, List.map_cons, List.sum_cons] at ih ⊢
      simpa [strTok, countTokens, countTokensGo] using ih
  · simp [rebuildInit, mapKeys]
  · intro kv h
    rw [rebuildInit, List.mem_map] at h
    obtain ⟨kv0, _, hkv⟩ := h
    exact ⟨[], by rw [← hkv]⟩

theorem cleanupFields_totalTok (m : SectionMap) :
    totalTok (cleanupFields m) = totalTok m := by
  induction m with
  | nil => rfl
  | cons kv rest ih =>
    obtain ⟨k, v⟩ := kv
    simp only [cleanupFields, totalTok, List.map_cons, List.sum_cons] at ih ⊢
    cases v with
    | str s =>
      have : strTok (JSValue.str (trimChars s)) = strTok (JSValue.str s) := by
        show countTokens (trimChars s) = countTokens s
        exact countTokens_trimChars s
      simpa [this] using ih
    | null => simpa using ih
    | bool b => simpa using ih
    | num q => simpa using ih
    | arr a => simpa using ih
    | obj o => simpa using ih

/-- Specification of pass 2: the rebuilt map's word total is exactly the
running total at the cutoff, which is within budget for a nonnegative
budget and never exceeds the input total. -/
theorem trimSecondPass_spec (mx : Int) (m : SectionMap) :
    totalTok (trimSecondPass mx m).1 = (trimSecondPass mx m).2 ∧
    ((0 : Int) ≤ mx → (((trimSecondPass mx m).2 : Nat) : Int) ≤ mx) ∧
    (trimSecondPass mx m).2 ≤ totalTok m := by
  have hscan := cutoffScan_spec mx (collectSentences m) 0
  set all := collectSentences m with hall
  set r := cutoffScan mx all 0 with hr
  have hinit := rebuildInit_spec m
  have hkept : ∀ e ∈ all.take r.1, e.1 ∈ mapKeys (rebuildInit m) := by
    intro e he
    rw [hinit.2.1]
    exact (collectSentences_mem m (List.take_subset _ _ he)).1
  have hbuild := rebuildAll_spec (all.take r.1) (rebuildInit m) hinit.2.2 hkept
  have hsum_eq : ((all.take r.1).map (fun e => countTokens e.2.1)).sum
      = ((all.take r.1).map (fun e => e.2.2)).sum := by
    congr 1
    apply List.map_congr_left
    intro e he
    exact ((collectSentences_mem m (List.take_subset _ _ he)).2.2).symm
  refine ⟨?_, ?_, ?_⟩
  · show totalTok (cleanupFields (rebuildAll (all.take r.1) (rebuildInit m))) = r.2
    rw [cleanupFields_totalTok, hbuild.1, hinit.1, hsum_eq]
    omega
  · intro hmx
    exact hscan.2.1 (by simpa using hmx)
  · have h1 : r.2 = ((all.take r.1).map (fun e => e.2.2)).sum := by
      have := hscan.1
      omega
    have h2 : ((all.take r.1).map (fun e => e.2.2)).sum
        ≤ (all.map (fun e => e.2.2)).sum :=
      sum_map_le_of_prefix _ (List.take_prefix _ _)
    have hsnd : (trimSecondPass mx m).2 = r.2 := rfl
    rw [hsnd, h1, ← collectSentences_sum m]
    exact h2

/-! ### The trimmer claims -/

/-- A two-word section map, used as a concrete witness input. -/
def trimDemoSmall : SectionMap :=
  [("ClosingParagraph", JSValue.str ['H', 'i', '.'])]

/-- A four-word section map exceeding a budget of 1. -/
def trimDemoBig : SectionMap :=
  [("ClosingParagraph", JSValue.str "Hi there. Bye now.".data)]

/-- C1 (counterexample): as stated — over *every* integer word budget —
the claim fails: for the budget −1, an input of 1 word exceeds the
budget, yet the trimmed output (0 words) still exceeds it, because no
removal can bring a nonnegative word count under a negative budget. -/
theorem wordCountValidator_integer_budget_counterexample :
    (-1 : Int) < (totalWordsOf trimDemoSmall : Int) ∧
    ¬ ((totalWordsOf (wordCountValidator trimDemoSmall (-1)) : Int) ≤ (-1 : Int)) := by
  constructor
  · decide
  · decide

/-- C1 (amended): for every section map and every integer word budget,
the trimmer returns the input unchanged whenever the total word count is
at most the budget; whenever the total exceeds a *nonnegative* budget,
the returned map's total is at most the budget; and in every case the
returned map's total never exceeds the input's total. -/
theorem wordCountValidator_trim_spec (m : SectionMap) (mx : Int) :
    ((totalWordsOf m : Int) ≤ mx → wordCountValidator m mx = m) ∧
    (0 ≤ mx → mx < (totalWordsOf m : Int) →
      (totalWordsOf (wordCountValidator m mx) : Int) ≤ mx) ∧
    totalWordsOf (wordCountValidator m mx) ≤ totalWordsOf m := by
  have htw : ∀ m2 : SectionMap, totalWordsOf m2 = totalTok m2 := totalWordsOf_eq_totalTok
  by_cases h0 : (totalWordsOf m : Int) ≤ mx
  · have heq : wordCountValidator m mx = m := by
      simp only [wordCountValidator, if_pos h0]
    exact ⟨fun _ => heq, fun _ hgt => absurd hgt (by omega), by rw [heq]⟩
  · have hpass1 := trimFirstPass_spec mx trimOrder m (totalWordsOf m : Int) (by rw [htw m])
    set r := trimFirstPass mx trimOrder m (totalWordsOf m : Int) with hrdef
    by_cases h1 : mx < r.2
    · have heq : wordCountValidator m mx = (trimSecondPass mx r.1).1 := by
        simp only [wordCountValidator, if_neg h0]
        rw [← hrdef, if_pos h1]
      have htsp := trimSecondPass_spec mx r.1
      refine ⟨fun h => absurd h h0, fun hmx _ => ?_, ?_⟩
      · rw [heq, htw _, htsp.1]
        exact htsp.2.1 hmx
      · rw [heq, htw _, htsp.1, htw m]
        have h2 : (totalTok r.1 : Int) = r.2 := hpass1.1.symm
        have h3 : r.2 ≤ (totalWordsOf m : Int) := hpass1.2
        have h4 : (trimSecondPass mx r.1).2 ≤ totalTok r.1 := htsp.2.2
        rw [htw m] at h3
        omega
    · have heq : wordCountValidator m mx = r.1 := by
        simp only [wordCountValidator, if_neg h0]
        rw [← hrdef, if_neg h1]
      refine ⟨fun h => absurd h h0, fun _ _ => ?_, ?_⟩
      · rw [heq, htw _]
        have h2 : (totalTok r.1 : Int) = r.2 := hpass1.1.symm
        omega
      · rw [heq, htw _, htw m]
        have h2 : (totalTok r.1 : Int) = r.2 := hpass1.1.symm
        have h3 : r.2 ≤ (totalWordsOf m : Int) := hpass1.2
        rw [htw m] at h3
        omega

/-- Witness for `wordCountValidator_trim_spec` at concrete inputs:
a 2-word map under budget 480 is untouched, and a 4-word map under
budget 1 is trimmed to at most 1 word and never grows. -/
theorem wordCountValidator_trim_spec_witness :
    wordCountValidator trimDemoSmall 480 = trimDemoSmall ∧
    (totalWordsOf (wordCountValidator trimDemoBig 1) : Int) ≤ 1 ∧
    totalWordsOf (wordCountValidator trimDemoBig 1) ≤ totalWordsOf trimDemoBig :=
  ⟨(wordCountValidator_trim_spec trimDemoSmall 480).1 (by decide),
   (wordCountValidator_trim_spec trimDemoBig 1).2.1 (by decide) (by decide),
   (wordCountValidator_trim_spec trimDemoBig 1).2.2⟩

/-- A one-sentence paragraph of `n` words (`w w … w.`). -/
def mkWordSent (n : Nat) : List Char :=
  joinSpace (List.replicate n ['w']) ++ ['.']

/-- The closing section of the end-to-end trimming scenario: three
sentences of 10, 10 and 25 words. -/
def scenarioClosing : List Char :=
  mkWordSent 10 ++ ' ' :: mkWordSent 10 ++ ' ' :: mkWordSent 25

/-- The end-to-end trimming scenario: a 500-word section map whose
non-closing sections are single sentences, so that pass 1 can only trim
the closing section. -/
def scenarioSectionMap : SectionMap :=
  [("HiringManagerOrTeamName", JSValue.str (mkWordSent 5)),
   ("OpeningHookParagraph", JSValue.str (mkWordSent 100)),
   ("AlignmentParagraph", JSValue.str (mkWordSent 100)),
   ("WhyCompanySentence", JSValue.str (mkWordSent 50)),
   ("LeadershipParagraph", JSValue.str (mkWordSent 100)),
   ("PublicSectorInterestParagraph", JSValue.str (mkWordSent 100)),
   ("ClosingParagraph", JSValue.str scenarioClosing)]

/-- C8: for a section map totalling 500 words trimmed under a 480-word
budget, with the priority list placing the closing field last, pass 1
removes whole trailing sentences from the closing field (the only field
with more than one sentence, so the first field actually trimmed): the
output differs from the input only in `ClosingParagraph`, which loses
exactly its final 25-word sentence; the resulting total is 475 ≤ 480,
and the closing field retains 2 ≥ 1 sentences, so pass 2 (global
truncation) does not trigger. -/
theorem wordCountValidator_scenario_500_480 :
    totalWordsOf scenarioSectionMap = 500 ∧
    wordCountValidator scenarioSectionMap 480
      = updateField scenarioSectionMap "ClosingParagraph"
          (JSValue.str (mkWordSent 10 ++ ' ' :: mkWordSent 10)) ∧
    totalWordsOf (wordCountValidator scenarioSectionMap 480) = 475 ∧
    (475 : Int) ≤ 480 ∧
    1 ≤ (fieldSentences (mkWordSent 10 ++ ' ' :: mkWordSent 10)).length := by
  refine ⟨by decide, by rfl, by decide, by decide, by decide⟩

/-! ## The in-memory cache (`MemoryCache`, `server/cache.ts`)

The store is a JavaScript `Map`: an insertion-ordered association list
in which `set` overwrites in place and `delete` removes the entry.
Time is in milliseconds (`Date.now()`), passed explicitly. -/

/-- `CacheEntry<T>`: `{ data, expiry, key }`. -/
structure CacheEntry where
  data : JSValue
  expiry : Int
  key : String

/-- The backing `Map<string, CacheEntry<any>>`. -/
abbrev CacheStore := List (String × CacheEntry)

/-- `Map.prototype.get`. -/
def storeLookup : CacheStore → String → Option CacheEntry
  | [], _ => none
  | (k0, e0) :: rest, k => if k0 = k then some e0 else storeLookup rest k

/-- `Map.prototype.set`: overwrite in place, else append. -/
def storeSet : CacheStore → String → CacheEntry → CacheStore
  | [], k, e => [(k, e)]
  | (k0, e0) :: rest, k, e =>
    if k0 = k then (k0, e) :: rest else (k0, e0) :: storeSet rest k e

namespace MemoryCache

/-- `set(key, data, ttlSeconds)`: store with expiry `now + ttl*1000`. -/
def set (st : CacheStore) (key : String) (data : JSValue) (ttlSeconds now : Int) : CacheStore :=
  storeSet st key ⟨data, now + ttlSeconds * 1000, key⟩

/-- `delete(key)`. -/
def delete (st : CacheStore) (key : String) : CacheStore :=
  st.filter (fun kv => decide (kv.1 ≠ key))

/-- `get(key)`: absent gives `null`; a read past expiry deletes the
entry and gives `null`; otherwise the stored data.  Returns the value
and the (possibly changed) store. -/
def get (st : CacheStore) (key : String) (now : Int) : Option JSValue × CacheStore :=
  match storeLookup st key with
  | none => (none, st)
  | some entry =>
    if entry.expiry < now then (none, delete st key)
    else (some entry.data, st)

/-- `getKeysMatching(pattern)`: all keys that `include` the pattern as a
substring (no glob interpretation). -/
def getKeysMatching (st : CacheStore) (pattern : String) : List String :=
  (st.map Prod.fst).filter (fun k => listContainsSub k.data pattern.data)

end MemoryCache

/-! ### Domain cache keys (templates of `CACHE_CONFIG`) -/

/-- `user:{userId}:StyleGuide:all_raw`. -/
def styleGuideRawKey (userId : Nat) : String :=
  "user:" ++ toString userId ++ ":StyleGuide:all" ++ "_raw"

/-- `user:{userId}:StyleGuide:all_processed`. -/
def styleGuideProcessedKey (userId : Nat) : String :=
  "user:" ++ toString userId ++ ":StyleGuide:all" ++ "_processed"

/-- `user:{userId}:Resume:all_raw`. -/
def resumeRawKey (userId : Nat) : String :=
  "user:" ++ toString userId ++ ":Resume:all" ++ "_raw"

/-- `user:{userId}:Resume:all_processed`. -/
def resumeProcessedKey (userId : Nat) : String :=
  "user:" ++ toString userId ++ ":Resume:all" ++ "_processed"

/-- `` `${jobTitle}_${company}`.toLowerCase().replace(/[^a-z0-9]/g, '_') ``. -/
def coverLetterLetterId (jobTitle company : String) : String :=
  String.mk (((jobTitle.data ++ '_' :: company.data).map jsToLower).map
    (fun c => if ('a' ≤ c ∧ c ≤ 'z') ∨ ('0' ≤ c ∧ c ≤ '9') then c else '_'))

/-- `user:{userId}:CoverLetter:{letterId}_raw`. -/
def coverLetterRawKey (jobTitle company : String) (userId : Nat) : String :=
  "user:" ++ toString userId ++ ":CoverLetter:" ++ coverLetterLetterId jobTitle company ++ "_raw"

/-- `user:{userId}:CoverLetter:{letterId}_processed`. -/
def coverLetterProcessedKey (jobTitle company : String) (userId : Nat) : String :=
  "user:" ++ toString userId ++ ":CoverLetter:"
    ++ coverLetterLetterId jobTitle company ++ "_processed"

/-- `StyleGuideCache.invalidate`: clear both tiers. -/
def styleGuideInvalidate (userId : Nat) (st : CacheStore) : CacheStore :=
  MemoryCache.delete (MemoryCache.delete st (styleGuideRawKey userId))
    (styleGuideProcessedKey userId)

/-- `ResumeEmbeddingsCache.invalidate`: clear both tiers. -/
def resumeEmbeddingsInvalidate (userId : Nat) (st : CacheStore) : CacheStore :=
  MemoryCache.delete (MemoryCache.delete st (resumeRawKey userId))
    (resumeProcessedKey userId)

/-- `invalidateUserCaches(userId)`: invalidate both domain caches, then
delete every key matching the pattern `user:{userId}:CoverLetter:*`
(substring matching — the `*` is part of the pattern string, not a glob). -/
def invalidateUserCaches (userId : Nat) (st : CacheStore) : CacheStore :=
  let st1 := styleGuideInvalidate userId st
  let st2 := resumeEmbeddingsInvalidate userId st1
  let userCachePattern := "user:" ++ toString userId ++ ":CoverLetter:" ++ "*"
  let matchingKeys := MemoryCache.getKeysMatching st2 userCachePattern
  matchingKeys.foldl (fun s k => MemoryCache.delete s k) st2

/-! ### `CoverLetterDataCache` -/

namespace CoverLetterDataCache

/-- The processed-tier shape check: any truthy value whose `typeof` is
`object` or `string`, or that is an array. -/
def validateProcessedSchema (data : JSValue) : Bool :=
  jsTruthy data &&
    (decide (jsTypeof data = "object") || decide (jsTypeof data = "string") || jsIsArray data)

/-- `getRaw`: read the raw tier (the config flags are enabled). -/
def getRaw (jobTitle company : String) (userId : Nat) (st : CacheStore) (now : Int) :
    Option JSValue × CacheStore :=
  MemoryCache.get st (coverLetterRawKey jobTitle company userId) now

/-- `getProcessed`: read the processed tier. -/
def getProcessed (jobTitle company : String) (userId : Nat) (st : CacheStore) (now : Int) :
    Option JSValue × CacheStore :=
  MemoryCache.get st (coverLetterProcessedKey jobTitle company userId) now

/-- The raw-tier fallback of `get`: a truthy raw value is returned,
otherwise the read is a miss. -/
def getRawFallback (jobTitle company : String) (userId : Nat) (st : CacheStore) (now : Int) :
    Option JSValue × CacheStore :=
  match getRaw jobTitle company userId st now with
  | (some r, st2) => if jsTruthy r then (some r, st2) else (none, st2)
  | (none, st2) => (none, st2)

/-- `get`: the processed tier is trusted when truthy and shape-valid,
else fall back to the raw tier, else miss. -/
def get (jobTitle company : String) (userId : Nat) (st : CacheStore) (now : Int) :
    Option JSValue × CacheStore :=
  match getProcessed jobTitle company userId st now with
  | (some v, st2) =>
    if jsTruthy v && validateProcessedSchema v then (some v, st2)
    else getRawFallback jobTitle company userId st2 now
  | (none, st2) => getRawFallback jobTitle company userId st2 now

/-- `set`: store in both tiers with the configured 3600-second TTL. -/
def set (jobTitle company : String) (userId : Nat) (data : JSValue)
    (st : CacheStore) (now : Int) : CacheStore :=
  MemoryCache.set
    (MemoryCache.set st (coverLetterRawKey jobTitle company userId) data 3600 now)
    (coverLetterProcessedKey jobTitle company userId) data 3600 now

end CoverLetterDataCache

/-! ### Cache lemmas and claims -/

theorem storeLookup_storeSet_self (st : CacheStore) (k : String) (e : CacheEntry) :
    storeLookup (storeSet st k e) k = some e := by
  induction st with
  | nil => simp [storeSet, storeLookup]
  | cons kv rest ih =>
    obtain ⟨k0, e0⟩ := kv
    rw [storeSet]
    by_cases hk : k0 = k
    · rw [if_pos hk, storeLookup, if_pos hk]
    · rw [if_neg hk, storeLookup, if_neg hk]
      exact ih

theorem storeLookup_storeSet_other (st : CacheStore) (k k2 : String) (e : CacheEntry)
    (h : k ≠ k2) :
    storeLookup (storeSet st k e) k2 = storeLookup st k2 := by
  induction st with
  | nil => simp [storeSet, storeLookup, h]
  | cons kv rest ih =>
    obtain ⟨k0, e0⟩ := kv
    rw [storeSet]
    by_cases hk : k0 = k
    · rw [if_pos hk, storeLookup, storeLookup]
      subst hk
      rw [if_neg h, if_neg h]
    · rw [if_neg hk, storeLookup, storeLookup]
      by_cases hk2 : k0 = k2
      · rw [if_pos hk2, if_pos hk2]
      · rw [if_neg hk2, if_neg hk2]
        exact ih

theorem storeLookup_none_not_mem {st : CacheStore} {k : String}
    (h : storeLookup st k = none) : ∀ kv ∈ st, kv.1 ≠ k := by
  induction st with
  | nil => intro kv hkv; simp at hkv
  | cons kv0 rest ih =>
    intro kv hkv
    obtain ⟨k0, e0⟩ := kv0
    rw [storeLookup] at h
    by_cases hk : k0 = k
    · rw [if_pos hk] at h; cases h
    · rw [if_neg hk] at h
      rcases List.mem_cons.mp hkv with hkv | hkv
      · rw [hkv]; exact hk
      · exact ih h kv hkv

theorem storeSet_absent {st : CacheStore} {k : String} (e : CacheEntry)
    (h : storeLookup st k = none) : storeSet st k e = st ++ [(k, e)] := by
  induction st with
  | nil => rfl
  | cons kv rest ih =>
    obtain ⟨k0, e0⟩ := kv
    rw [storeLookup] at h
    by_cases hk : k0 = k
    · rw [if_pos hk] at h; cases h
    · rw [if_neg hk] at h
      rw [storeSet, if_neg hk, ih h]
      rfl

theorem delete_absent {st : CacheStore} {k : String}
    (h : storeLookup st k = none) : MemoryCache.delete st k = st := by
  unfold MemoryCache.delete
  apply List.filter_eq_self.mpr
  intro kv hkv
  simpa using storeLookup_none_not_mem h kv hkv

/-- C4: after `set(k, v, T)` at time `t` on a store not containing `k`,
the entry's expiry is `t + T`-seconds (`t + 1000·T` ms); `get(k)` at any
instant that has not passed the expiry returns `v` and leaves the store
unchanged; at any instant strictly after the expiry `get(k)` returns
absent and deletes the entry, leaving the store exactly as if the key
had never been set (lazy eviction). -/
theorem memoryCache_ttl_spec (st : CacheStore) (k : String) (v : JSValue)
    (ttl t : Int) (hk : storeLookup st k = none) :
    storeLookup (MemoryCache.set st k v ttl t) k = some ⟨v, t + ttl * 1000, k⟩ ∧
    (∀ t2, t2 ≤ t + ttl * 1000 →
      MemoryCache.get (MemoryCache.set st k v ttl t) k t2
        = (some v, MemoryCache.set st k v ttl t)) ∧
    (∀ t2, t + ttl * 1000 < t2 →
      MemoryCache.get (MemoryCache.set st k v ttl t) k t2 = (none, st)) := by
  have hself : storeLookup (MemoryCache.set st k v ttl t) k = some ⟨v, t + ttl * 1000, k⟩ :=
    storeLookup_storeSet_self st k _
  refine ⟨hself, ?_, ?_⟩
  · intro t2 ht2
    rw [MemoryCache.get, hself]
    dsimp only
    rw [if_neg (by simp; omega)]
  · intro t2 ht2
    rw [MemoryCache.get, hself]
    dsimp only
    rw [if_pos (by simpa using ht2)]
    rw [show MemoryCache.set st k v ttl t = st ++ [(k, ⟨v, t + ttl * 1000, k⟩)] from
      storeSet_absent _ hk]
    unfold MemoryCache.delete
    rw [List.filter_append]
    have h1 : st.filter (fun kv => decide (kv.1 ≠ k)) = st :=
      List.filter_eq_self.mpr (fun kv hkv => by simpa using storeLookup_none_not_mem hk kv hkv)
    rw [h1]
    simp

/-- Witness for `memoryCache_ttl_spec`: a value set at time 100 with a
5-second TTL is readable at the expiry instant 5100 and evicted at 5101. -/
theorem memoryCache_ttl_spec_witness :
    storeLookup (MemoryCache.set [] "k" (JSValue.str ['x']) 5 100) "k"
      = some ⟨JSValue.str ['x'], 100 + 5 * 1000, "k"⟩ ∧
    MemoryCache.get (MemoryCache.set [] "k" (JSValue.str ['x']) 5 100) "k" 5100
      = (some (JSValue.str ['x']), MemoryCache.set [] "k" (JSValue.str ['x']) 5 100) ∧
    MemoryCache.get (MemoryCache.set [] "k" (JSValue.str ['x']) 5 100) "k" 5101
      = (none, []) := by
  have h := memoryCache_ttl_spec [] "k" (JSValue.str ['x']) 5 100 (by rfl)
  exact ⟨h.1, h.2.1 5100 (by omega), h.2.2 5101 (by omega)⟩

/-- The cover-letter cache entry of the C2 demonstration store. -/
def c2CoverLetterKey : String := coverLetterProcessedKey "Engineer" "Acme" 1

/-- A job-mapping entry for user 1. -/
def c2DemoEntry : CacheEntry :=
  ⟨JSValue.str "mapped accomplishments".data, 1000000, c2CoverLetterKey⟩

/-- A store holding user 1's style-profile tiers, resume-embedding tiers
and one job-mapping (CoverLetter) entry. -/
def c2DemoStore : CacheStore :=
  [(styleGuideRawKey 1, ⟨JSValue.str "style".data, 1000000, styleGuideRawKey 1⟩),
   (styleGuideProcessedKey 1, ⟨JSValue.obj [], 1000000, styleGuideProcessedKey 1⟩),
   (resumeRawKey 1, ⟨JSValue.str "resume".data, 1000000, resumeRawKey 1⟩),
   (resumeProcessedKey 1, ⟨JSValue.obj [], 1000000, resumeProcessedKey 1⟩),
   (c2CoverLetterKey, c2DemoEntry)]

/-- C2 (code bug): `invalidateUserCaches(1)` deletes both style-profile
tiers and both resume-embedding tiers, but deletes *no* job-mapping
(CoverLetter) entry: the pattern `user:1:CoverLetter:*` is matched by
`getKeysMatching` as a plain substring, and no key contains a literal
`*`, so the enumeration is empty and the user's cover-letter cache entry
survives — contradicting the claim (and the code's own comment and log
message) that every such entry is removed. -/
theorem invalidateUserCaches_coverletter_entry_survives :
    storeLookup (invalidateUserCaches 1 c2DemoStore) c2CoverLetterKey = some c2DemoEntry ∧
    MemoryCache.getKeysMatching
      (resumeEmbeddingsInvalidate 1 (styleGuideInvalidate 1 c2DemoStore))
      ("user:1:CoverLetter:" ++ "*") = [] ∧
    storeLookup (invalidateUserCaches 1 c2DemoStore) (styleGuideRawKey 1) = none ∧
    storeLookup (invalidateUserCaches 1 c2DemoStore) (styleGuideProcessedKey 1) = none ∧
    storeLookup (invalidateUserCaches 1 c2DemoStore) (resumeRawKey 1) = none ∧
    storeLookup (invalidateUserCaches 1 c2DemoStore) (resumeProcessedKey 1) = none := by
  refine ⟨rfl, by decide, rfl, rfl, rfl, rfl⟩

/-- A store whose processed tier holds the empty string (unexpired), raw
tier absent. -/
def c10DemoStore : CacheStore :=
  [(coverLetterProcessedKey "Engineer" "Acme" 1,
    ⟨JSValue.str [], 1000000, coverLetterProcessedKey "Engineer" "Acme" 1⟩)]

/-- C10 (counterexample): the empty string *is* a string (`typeof` is
`"string"`), yet the processed-tier shape check rejects it — the leading
truthiness test `data &&` fails on `""` — and a cached empty string
produces a cache miss rather than being returned from the processed tier. -/
theorem validateProcessedSchema_empty_string_counterexample :
    jsTypeof (JSValue.str []) = "string" ∧
    CoverLetterDataCache.validateProcessedSchema (JSValue.str []) = false ∧
    (CoverLetterDataCache.get "Engineer" "Acme" 1 c10DemoStore 0).1 = none :=
  ⟨rfl, rfl, rfl⟩

/-- C10 (amended): the processed-tier shape check accepts exactly the
truthy values among objects, arrays and strings — every (non-null)
object, every array, and every *non-empty* string — inspecting no key
or field; and every such value cached in the processed tier is returned
directly by `CoverLetterDataCache.get`, so a processed-tier shape
mismatch never produces a cache miss for those values. -/
theorem coverLetterDataCache_processed_schema_spec (v : JSValue) :
    (CoverLetterDataCache.validateProcessedSchema v = true ↔
      (∃ fields, v = JSValue.obj fields) ∨ (∃ elems, v = JSValue.arr elems) ∨
      (∃ s, v = JSValue.str s ∧ s ≠ [])) ∧
    (∀ (jobTitle company : String) (userId : Nat) (st st2 : CacheStore) (now : Int),
      CoverLetterDataCache.getProcessed jobTitle company userId st now = (some v, st2) →
      CoverLetterDataCache.validateProcessedSchema v = true →
      CoverLetterDataCache.get jobTitle company userId st now = (some v, st2)) := by
  constructor
  · cases v with
    | null =>
      simp [CoverLetterDataCache.validateProcessedSchema, jsTruthy]
    | bool b =>
      simp [CoverLetterDataCache.validateProcessedSchema, jsTruthy, jsTypeof, jsIsArray]
    | num q =>
      simp [CoverLetterDataCache.validateProcessedSchema, jsTruthy, jsTypeof, jsIsArray]
    | str s =>
      simp [CoverLetterDataCache.validateProcessedSchema, jsTruthy, jsTypeof, jsIsArray]
    | arr a =>
      simp [CoverLetterDataCache.validateProcessedSchema, jsTruthy, jsTypeof, jsIsArray]
    | obj o =>
      simp [CoverLetterDataCache.validateProcessedSchema, jsTruthy, jsTypeof, jsIsArray]
  · intro jobTitle company userId st st2 now hget hval
    have htruthy : jsTruthy v = true := by
      have h2 := hval
      unfold CoverLetterDataCache.validateProcessedSchema at h2
      cases hb : jsTruthy v
      · rw [hb] at h2; simp at h2
      · rfl
    rw [CoverLetterDataCache.get, hget]
    dsimp only
    rw [if_pos (by rw [htruthy, hval]; rfl)]

/-- A store whose processed tier holds the one-character string `x`. -/
def c10HitStore : CacheStore :=
  [(coverLetterProcessedKey "Engineer" "Acme" 1,
    ⟨JSValue.str ['x'], 1000000, coverLetterProcessedKey "Engineer" "Acme" 1⟩)]

/-- Witness for `coverLetterDataCache_processed_schema_spec`: a cached
non-empty string is returned directly from the processed tier. -/
theorem coverLetterDataCache_processed_schema_spec_witness :
    CoverLetterDataCache.get "Engineer" "Acme" 1 c10HitStore 0
      = (some (JSValue.str ['x']), c10HitStore) ∧
    CoverLetterDataCache.validateProcessedSchema (JSValue.str ['x']) = true :=
  ⟨(coverLetterDataCache_processed_schema_spec (JSValue.str ['x'])).2
      "Engineer" "Acme" 1 c10HitStore c10HitStore 0 (by rfl) (by rfl),
   by rfl⟩

/-! ### The accomplishment-mapping cache branch of `execute`
(`server/pipeline.ts`, lines 710–724 and 900–933) -/

/-- The catch-branch default of `mapAccomplishmentsToRequirements`. -/
def defaultAccomplishments : JSValue :=
  JSValue.obj [("accomplishments",
    JSValue.str "Professional experience and achievements".data)]

/-- `mapAccomplishmentsToRequirements`: the try block (an OpenAI call,
JSON sanitisation and quantitative scoring of the parsed result) is an
external-capability computation, abstracted as the oracle `outcome`; the
catch branch returns the literal domain default. -/
def mapAccomplishmentsToRequirements (outcome : Except String JSValue) : JSValue :=
  match outcome with
  | .ok scored => scored
  | .error _ => defaultAccomplishments

/-- Step 3 of `execute`: check the cover-letter data cache; on a miss,
compute the accomplishment mapping and cache whatever it returned. -/
def coverLetterCacheStep (jobTitle company : String) (userId : Nat)
    (outcome : Except String JSValue) (st : CacheStore) (now : Int) :
    JSValue × CacheStore :=
  match CoverLetterDataCache.get jobTitle company userId st now with
  | (some cached, st2) => (cached, st2)
  | (none, st2) =>
    let matched := mapAccomplishmentsToRequirements outcome
    (matched, CoverLetterDataCache.set jobTitle company userId matched st2 now)

/-- A value standing for a successful recomputation. -/
def freshOutcomeValue : JSValue := JSValue.str "freshly computed mapping".data

/-- C7 (counterexample): when the accomplishment-mapping compute step
fails, the pipeline receives the domain default — but, contrary to the
claim, the default *is* written into the cover-letter data cache: after
a failing first call on an empty cache, the processed tier holds the
default, and a second call with the same key — even one whose compute
step would now succeed — returns the cached default instead of
recomputing. -/
theorem coverLetterCacheStep_default_cached_counterexample :
    (coverLetterCacheStep "Engineer" "Acme" 1 (Except.error "ServiceError") [] 0).1
      = defaultAccomplishments ∧
    storeLookup
        (coverLetterCacheStep "Engineer" "Acme" 1 (Except.error "ServiceError") [] 0).2
        (coverLetterProcessedKey "Engineer" "Acme" 1)
      = some ⟨defaultAccomplishments, 3600000, coverLetterProcessedKey "Engineer" "Acme" 1⟩ ∧
    (coverLetterCacheStep "Engineer" "Acme" 1 (Except.ok freshOutcomeValue)
        (coverLetterCacheStep "Engineer" "Acme" 1 (Except.error "ServiceError") [] 0).2
        10).1
      = defaultAccomplishments ∧
    defaultAccomplishments ≠ freshOutcomeValue :=
  ⟨rfl, rfl, rfl, fun h => JSValue.noConfusion h⟩

theorem coverLetterKeys_ne (jobTitle company : String) (userId : Nat) :
    coverLetterProcessedKey jobTitle company userId
      ≠ coverLetterRawKey jobTitle company userId := by
  intro h
  have hlen := congrArg String.length h
  have h10 : "_processed".length = 10 := rfl
  have h4 : "_raw".length = 4 := rfl
  simp only [coverLetterProcessedKey, coverLetterRawKey, String.length_append,
    h10, h4] at hlen
  omega

/-- C7 (amended): when the accomplishment-mapping compute step fails on
a cache miss, the pipeline receives the domain default
`{accomplishments: "Professional experience and achievements"}` and this
default *is* written into both tiers of the cover-letter data cache with
the configured 3600-second TTL, so every later call with the same
(user, job title, company) before expiry returns the cached default
instead of recomputing. -/
theorem coverLetterCacheStep_error_caches_default
    (jobTitle company : String) (userId : Nat) (st : CacheStore) (now : Int) (e : String)
    (hmiss : (CoverLetterDataCache.get jobTitle company userId st now).1 = none) :
    (coverLetterCacheStep jobTitle company userId (Except.error e) st now).1
      = defaultAccomplishments ∧
    storeLookup (coverLetterCacheStep jobTitle company userId (Except.error e) st now).2
        (coverLetterProcessedKey jobTitle company userId)
      = some ⟨defaultAccomplishments, now + 3600 * 1000,
          coverLetterProcessedKey jobTitle company userId⟩ ∧
    storeLookup (coverLetterCacheStep jobTitle company userId (Except.error e) st now).2
        (coverLetterRawKey jobTitle company userId)
      = some ⟨defaultAccomplishments, now + 3600 * 1000,
          coverLetterRawKey jobTitle company userId⟩ ∧
    (∀ (outcome2 : Except String JSValue) (now2 : Int), now2 ≤ now + 3600 * 1000 →
      (coverLetterCacheStep jobTitle company userId outcome2
          (coverLetterCacheStep jobTitle company userId (Except.error e) st now).2
          now2).1
        = defaultAccomplishments) := by
  have hget : CoverLetterDataCache.get jobTitle company userId st now
      = (none, (CoverLetterDataCache.get jobTitle company userId st now).2) := by
    rw [← hmiss]
  have hstep : coverLetterCacheStep jobTitle company userId (Except.error e) st now
      = (defaultAccomplishments,
         CoverLetterDataCache.set jobTitle company userId defaultAccomplishments
           (CoverLetterDataCache.get jobTitle company userId st now).2 now) := by
    rw [coverLetterCacheStep, hget]
    rfl
  rw [hstep]
  clear hstep
  set st2 := (CoverLetterDataCache.get jobTitle company userId st now).2 with hst2
  have hp : storeLookup
      (CoverLetterDataCache.set jobTitle company userId defaultAccomplishments st2 now)
      (coverLetterProcessedKey jobTitle company userId)
      = some ⟨defaultAccomplishments, now + 3600 * 1000,
          coverLetterProcessedKey jobTitle company userId⟩ :=
    storeLookup_storeSet_self _ _ _
  have hraw : storeLookup
      (CoverLetterDataCache.set jobTitle company userId defaultAccomplishments st2 now)
      (coverLetterRawKey jobTitle company userId)
      = some ⟨defaultAccomplishments, now + 3600 * 1000,
          coverLetterRawKey jobTitle company userId⟩ := by
    rw [CoverLetterDataCache.set, MemoryCache.set,
      storeLookup_storeSet_other _ _ _ _ (coverLetterKeys_ne jobTitle company userId)]
    exact storeLookup_storeSet_self _ _ _
  refine ⟨rfl, hp, hraw, ?_⟩
  intro outcome2 now2 hnow2
  have hgp : CoverLetterDataCache.getProcessed jobTitle company userId
      (CoverLetterDataCache.set jobTitle company userId defaultAccomplishments st2 now) now2
      = (some defaultAccomplishments,
         CoverLetterDataCache.set jobTitle company userId defaultAccomplishments st2 now) := by
    rw [CoverLetterDataCache.getProcessed, MemoryCache.get, hp]
    dsimp only
    rw [if_neg (by simp; omega)]
  have hget2 : CoverLetterDataCache.get jobTitle company userId
      (CoverLetterDataCache.set jobTitle company userId defaultAccomplishments st2 now) now2
      = (some defaultAccomplishments,
         CoverLetterDataCache.set jobTitle company userId defaultAccomplishments st2 now) := by
    rw [CoverLetterDataCache.get, hgp]
    dsimp only
    rw [if_pos (by decide)]
  rw [coverLetterCacheStep, hget2]

/-- Witness for `coverLetterCacheStep_error_caches_default`: a failing
compute on an empty cache stores and returns the default, and a later
successful call still sees the cached default. -/
theorem coverLetterCacheStep_error_caches_default_witness :
    (coverLetterCacheStep "Engineer" "Acme" 1 (Except.error "boom") [] 0).1
      = defaultAccomplishments ∧
    (coverLetterCacheStep "Engineer" "Acme" 1 (Except.ok freshOutcomeValue)
        (coverLetterCacheStep "Engineer" "Acme" 1 (Except.error "boom") [] 0).2 10).1
      = defaultAccomplishments := by
  have h := coverLetterCacheStep_error_caches_default "Engineer" "Acme" 1 [] 0 "boom" (by rfl)
  exact ⟨h.1, h.2.2.2 (Except.ok freshOutcomeValue) 10 (by omega)⟩

/-! ## The claim validator (`OptimizedResumeValidator`,
`server/resumeValidator.ts`) -/

/-- The phrase categories. -/
inductive PhraseType where
  | metric : PhraseType
  | role : PhraseType
  | achievement : PhraseType
  | skill : PhraseType
deriving DecidableEq

/-- One entry of the PhraseIndex. -/
structure ResumePhrase where
  text : List Char
  normalized : List Char
  type : PhraseType
deriving DecidableEq

def isAsciiUpper (c : Char) : Bool := 'A' ≤ c ∧ c ≤ 'Z'

def isAsciiLower (c : Char) : Bool := 'a' ≤ c ∧ c ≤ 'z'

def isAsciiDigit (c : Char) : Bool := '0' ≤ c ∧ c ≤ '9'

/-- The `\w` class `[A-Za-z0-9_]` used by `\b` word boundaries. -/
def isWordChar (c : Char) : Bool :=
  isAsciiUpper c || isAsciiLower c || isAsciiDigit c || c = '_'

/-- `replace(/\s+/g, '_')`: each maximal whitespace run becomes one
underscore (emitted at the run's final character). -/
def wsToUnderscore : List Char → List Char
  | [] => []
  | c :: rest =>
    if isJsWs c then
      if rest.head?.elim false isJsWs then wsToUnderscore rest
      else '_' :: wsToUnderscore rest
    else c :: wsToUnderscore rest

/-- `normalizeText`: lowercase, strip `$%.,`, whitespace runs to `_`,
then keep only `[a-z0-9_]`. -/
def normalizeText (text : List Char) : List Char :=
  (wsToUnderscore
    ((text.map jsToLower).filter
      (fun c => decide (¬(c = '$' ∨ c = '%' ∨ c = '.' ∨ c = ','))))).filter
    (fun c => isAsciiLower c || isAsciiDigit c || c = '_')

/-- `ToInt32` of ECMAScript: reduce modulo 2³² into `[-2³¹, 2³¹)`. -/
def toInt32 (i : Int) : Int :=
  let m := i % 4294967296
  if 2147483648 ≤ m then m - 4294967296 else m

/-- One step of `hashSentence`:
`hash = ((hash << 5) - hash) + charCode; hash = hash & hash`. -/
def hashStep (h : Int) (c : Char) : Int :=
  toInt32 (toInt32 (h * 32) - h + (c.toNat : Int))

/-- `hashSentence`: the 32-bit rolling hash, rendered in decimal. -/
def hashSentence (text : List Char) : String :=
  toString (text.foldl hashStep 0)

/-- First-occurrence deduplication (`new Set(array)` preserving
insertion order). -/
def dedupAcc (seen : List (List Char)) : List (List Char) → List (List Char)
  | [] => []
  | x :: rest =>
    if decide (x ∈ seen) then dedupAcc seen rest
    else x :: dedupAcc (x :: seen) rest

def dedupKeepFirst (l : List (List Char)) : List (List Char) :=
  dedupAcc [] l

/-- `jaccardSimilarity(a, b)`: token sets from splitting on `_`. -/
def jaccardSimilarity (a b : List Char) : ℚ :=
  let setA := dedupKeepFirst (jsSplitChar '_' a)
  let setB := dedupKeepFirst (jsSplitChar '_' b)
  let intersection := setA.filter (fun x => decide (x ∈ setB))
  let union := dedupKeepFirst (setA ++ setB)
  (intersection.length : ℚ) / (union.length : ℚ)

/-! ### Phrase extraction (`extractResumePhrases`) -/

/-- The alternatives of the role-title pattern. -/
def roleWords : List String :=
  ["director", "manager", "lead", "senior", "principal", "vp", "ceo", "cto",
   "engineer", "analyst", "specialist", "coordinator", "consultant", "associate",
   "intern", "developer", "designer", "architect", "officer", "executive",
   "administrator", "supervisor"]

/-- The alternatives of the achievement-verb pattern. -/
def achievementWords : List String :=
  ["led", "managed", "built", "created", "developed", "implemented", "increased",
   "decreased", "improved", "optimized", "reduced", "delivered", "achieved",
   "exceeded", "streamlined", "coordinated", "facilitated", "spearheaded",
   "oversaw", "established", "launched", "designed", "executed", "collaborated",
   "contributed", "resolved", "enhanced", "modernized", "automated", "scaled"]

/-- The alternatives of the skills/education pattern. -/
def skillWords : List String :=
  ["experience", "proficient", "skilled", "expert", "knowledge", "familiar",
   "certification", "training", "education", "degree", "diploma"]

/-- A case-insensitive alternation of literal words, under `RegExp.test`,
holds iff the lowercased line contains one of the (lowercase) words. -/
def wordAlternationTest (words : List String) (line : List Char) : Bool :=
  words.any (fun w => listContainsSub (lowerChars line) w.data)

/-- After `[A-Z][a-z]`, the rest of `[a-z]+ [A-Z][a-z]+`: more lowercase
letters, then a space, an uppercase and a lowercase letter. -/
def capBigramLowerRun : List Char → Bool
  | [] => false
  | c :: rest =>
    if c = ' ' then
      match rest with
      | u :: d :: _ => isAsciiUpper u ∧ isAsciiLower d
      | _ => false
    else if isAsciiLower c then capBigramLowerRun rest
    else false

/-- `/[A-Z][a-z]+ [A-Z][a-z]+/` matching at the start of `l`. -/
def capBigramAt : List Char → Bool
  | c :: d :: rest => isAsciiUpper c ∧ isAsciiLower d ∧ capBigramLowerRun rest
  | _ => false

/-- `/[A-Z][a-z]+ [A-Z][a-z]+/.test(l)`. -/
def hasCapBigram : List Char → Bool
  | [] => false
  | c :: rest => capBigramAt (c :: rest) || hasCapBigram rest

/-- Case-insensitive literal-prefix test. -/
def startsWithCI (l : List Char) (pat : String) : Bool :=
  listStartsWith (lowerChars l) pat.data

/-- The ordered unit alternation
`([%$kmb]|percent|million|billion|thousand|years?|months?)` (with `/i`),
returning the matched length. -/
def metricUnitLength (l : List Char) : Option Nat :=
  match l with
  | [] => none
  | c :: _ =>
    if jsToLower c = '%' ∨ jsToLower c = '$' ∨ jsToLower c = 'k' ∨
        jsToLower c = 'm' ∨ jsToLower c = 'b' then some 1
    else if startsWithCI l "percent" then some 7
    else if startsWithCI l "million" then some 7
    else if startsWithCI l "billion" then some 7
    else if startsWithCI l "thousand" then some 8
    else if startsWithCI l "years" then some 5
    else if startsWithCI l "year" then some 4
    else if startsWithCI l "months" then some 6
    else if startsWithCI l "month" then some 5
    else none

/-- A match attempt of `/(\d+(?:\.\d+)?)\s*(unit)/` at the *start* of
`l`: maximal digits, optional maximal fraction, maximal whitespace, then
a unit.  (Backtracking to shorter greedy parts can never succeed: a
shorter digit or fraction run leaves a digit where no alternative of the
unit class or `\s*` can match.) -/
def tryMetricAt (l : List Char) : Option Nat :=
  let digits := l.takeWhile isAsciiDigit
  if digits.isEmpty then none
  else
    let rest1 := l.drop digits.length
    let fracLen : Nat :=
      match rest1 with
      | '.' :: rest2 =>
        let fd := rest2.takeWhile isAsciiDigit
        if fd.isEmpty then 0 else fd.length + 1
      | _ => 0
    let rest2 := rest1.drop fracLen
    let wsLen := (rest2.takeWhile isJsWs).length
    let rest3 := rest2.drop wsLen
    match metricUnitLength rest3 with
    | some ul => some (digits.length + fracLen + wsLen + ul)
    | none => none

/-- The `exec` loop over the sticky metric pattern: indices of the
successive non-overlapping leftmost matches.  `fuel` bounds the
iteration count; the caller passes the line length, which suffices since
every iteration consumes at least one character. -/
def findMetricGo : Nat → List Char → Nat → List Nat
  | 0, _, _ => []
  | fuel + 1, l, pos =>
    match l with
    | [] => []
    | c :: rest =>
      match tryMetricAt (c :: rest) with
      | some n => pos :: findMetricGo fuel ((c :: rest).drop n) (pos + n)
      | none => findMetricGo fuel rest (pos + 1)

/-- All `match.index` values of the metric pattern over a line. -/
def findMetricIndices (l : List Char) : List Nat :=
  findMetricGo l.length l 0

/-- `getContext(text, index, radius)`:
`text.substring(max(0, index-radius), min(length, index+radius)).trim()`. -/
def getContext (text : List Char) (index radius : Nat) : List Char :=
  trimChars ((text.take (min text.length (index + radius))).drop (index - radius))

/-- The phrases one line contributes, in push order: metrics (with a
25-character context window), then the role, achievement, skill and
capitalised-bigram heuristics over the trimmed line. -/
def extractLinePhrases (line : List Char) : List ResumePhrase :=
  let trimmedLine := trimChars line
  if trimmedLine.length < 10 then []
  else
    ((findMetricIndices line).map (fun i =>
      let context := getContext line i 25
      ⟨context, normalizeText context, PhraseType.metric⟩))
    ++ (if wordAlternationTest roleWords line then
          [⟨trimmedLine, normalizeText trimmedLine, PhraseType.role⟩] else [])
    ++ (if wordAlternationTest achievementWords line then
          [⟨trimmedLine, normalizeText trimmedLine, PhraseType.achievement⟩] else [])
    ++ (if wordAlternationTest skillWords line then
          [⟨trimmedLine, normalizeText trimmedLine, PhraseType.skill⟩] else [])
    ++ (if 20 < line.length ∧ hasCapBigram line then
          [⟨trimmedLine, normalizeText trimmedLine, PhraseType.achievement⟩] else [])

/-- `extractResumePhrases`: phrases of every line of the document. -/
def extractResumePhrases (resumeContent : List Char) : List ResumePhrase :=
  (jsSplitChar '\n' resumeContent).flatMap extractLinePhrases

/-! ### The per-sentence cascade (`validateSentence`) -/

/-- A memoised per-sentence verdict. -/
structure SentenceCheck where
  supported : Bool
  confidence : ℚ
deriving DecidableEq

/-- The memoisation object, keyed by the sentence hash. -/
abbrev ValidationCache := List (String × SentenceCheck)

def cacheLookup : ValidationCache → String → Option SentenceCheck
  | [], _ => none
  | (k0, r0) :: rest, k => if k0 = k then some r0 else cacheLookup rest k

/-- The boilerplate terms auto-approved by the cascade. -/
def standardElements : List String :=
  ["dear", "hiring", "team", "manager", "sincerely", "regards", "excited",
   "thrilled", "opportunity", "position", "application", "interview",
   "contribution", "experience", "skills", "background", "qualifications"]

/-- The action verbs auto-approved by the cascade. -/
def actionVerbs : List String :=
  ["led", "managed", "developed", "implemented", "created", "built", "designed",
   "coordinated", "facilitated", "achieved", "delivered", "improved", "optimized",
   "streamlined", "established", "launched"]

/-- Scan `l` position by position, attempting `attempt` only where a `\b`
boundary precedes (start of string or previous character not a word
character). -/
def scanWithBoundary (attempt : List Char → Bool) : List Char → Bool → Bool
  | [], _ => false
  | c :: rest, atB =>
    (atB && attempt (c :: rest)) || scanWithBoundary attempt rest (!isWordChar c)

/-- Does the following character position (after an `n`-character match
ending in a word character) sit at a `\b` boundary? -/
def boundaryAfter (l : List Char) (n : Nat) : Bool :=
  (l.drop n).head?.elim true (fun d => !isWordChar d)

/-- `\bw\b` for a literal word `w` over a lowercased string. -/
def wordWithBoundaries (w : String) (s : List Char) : Bool :=
  scanWithBoundary (fun l => listStartsWith l w.data && boundaryAfter l w.data.length) s true

/-- An attempt of `(years?|months?)\s+(of\s+)?(experience|work)\b` at a
position (the leading `\b` is the scanner's burden). -/
def timeSpanPatternAt (l : List Char) : Bool :=
  ["years", "year", "months", "month"].any (fun u =>
    listStartsWith l (u : String).data &&
      (let rest := l.drop (u : String).data.length
       let ws := rest.takeWhile isJsWs
       !ws.isEmpty &&
         (let r2 := rest.drop ws.length
          let finalWord : List Char → Bool := fun r =>
            (listStartsWith r "experience".data && boundaryAfter r 10) ||
            (listStartsWith r "work".data && boundaryAfter r 4)
          (listStartsWith r2 "of".data &&
            (let r3 := r2.drop 2
             let ws2 := r3.takeWhile isJsWs
             !ws2.isEmpty && finalWord (r3.drop ws2.length))) ||
          finalWord r2)))

/-- An attempt of `(proficient|skilled|experienced|familiar)\s+with\b`. -/
def proficiencyPatternAt (l : List Char) : Bool :=
  ["proficient", "skilled", "experienced", "familiar"].any (fun u =>
    listStartsWith l (u : String).data &&
      (let rest := l.drop (u : String).data.length
       let ws := rest.takeWhile isJsWs
       !ws.isEmpty &&
         (let r2 := rest.drop ws.length
          listStartsWith r2 "with".data && boundaryAfter r2 4)))

/-- `professionalPatterns.some(p => p.test(sentence))`: the four
case-insensitive word-boundary regexes, over the lowercased sentence
(lowercasing does not move `\b` boundaries). -/
def professionalPatternsTest (sentence : List Char) : Bool :=
  let s := lowerChars sentence
  ["experience", "background", "skills", "expertise", "knowledge"].any
      (fun w => wordWithBoundaries w s) ||
  scanWithBoundary timeSpanPatternAt s true ||
  scanWithBoundary proficiencyPatternAt s true ||
  ["bachelor", "master", "degree", "certification", "training"].any
      (fun w => wordWithBoundaries w s)

/-- Tier 3: the best Jaccard similarity of the normalised sentence
against every phrase (strict improvement, starting from 0). -/
def bestJaccard (phrases : List ResumePhrase) (normalized : List Char) : ℚ :=
  phrases.foldl (fun b p =>
    let similarity := jaccardSimilarity normalized p.normalized
    if b < similarity then similarity else b) 0

/-- Tier 4 (`computeSemanticSimilarity`): best keyword overlap between
the whitespace-token sets of the lowercased sentence and each phrase's
raw text. -/
def computeSemanticSimilarity (phrases : List ResumePhrase) (sentence : List Char) : ℚ :=
  let sentenceWords := dedupKeepFirst (jsSplitWs (lowerChars sentence))
  phrases.foldl (fun mx p =>
    let phraseWords := dedupKeepFirst (jsSplitWs (lowerChars p.text))
    let intersection := sentenceWords.filter (fun x => decide (x ∈ phraseWords))
    let union := dedupKeepFirst (sentenceWords ++ phraseWords)
    let similarity := (intersection.length : ℚ) / (union.length : ℚ)
    if mx < similarity then similarity else mx) 0

/-- `validateSentence`: the tiered cascade — memo, exact normalized
containment (confidence 1), Jaccard ≥ 0.15 (confidence = best score),
boilerplate/action-verb containment (0.85), professional-language
regexes (0.80), then the semantic fallback (supported iff ≥ 0.1,
confidence `max(score, 0.6)`).  Returns the verdict and the updated
memo. -/
def validateSentence (phrases : List ResumePhrase) (cache : ValidationCache)
    (sentence : List Char) : SentenceCheck × ValidationCache :=
  let sentHash := hashSentence sentence
  match cacheLookup cache sentHash with
  | some r => (r, cache)
  | none =>
    let normalized := normalizeText sentence
    if phrases.any (fun p =>
        decide (p.normalized ≠ []) && listContainsSub normalized p.normalized) then
      (⟨true, 1⟩, cache ++ [(sentHash, ⟨true, 1⟩)])
    else
      let bestSimilarity := bestJaccard phrases normalized
      if (3 : ℚ)/20 ≤ bestSimilarity then
        (⟨true, bestSimilarity⟩, cache ++ [(sentHash, ⟨true, bestSimilarity⟩)])
      else
        let sentenceLower := lowerChars sentence
        if standardElements.any (fun w => listContainsSub sentenceLower w.data) ||
            actionVerbs.any (fun w => listContainsSub sentenceLower w.data) then
          (⟨true, 17/20⟩, cache ++ [(sentHash, ⟨true, 17/20⟩)])
        else if professionalPatternsTest sentence then
          (⟨true, 4/5⟩, cache ++ [(sentHash, ⟨true, 4/5⟩)])
        else
          let semanticScore := computeSemanticSimilarity phrases sentence
          let result : SentenceCheck :=
            ⟨decide ((1 : ℚ)/10 ≤ semanticScore), max semanticScore (3/5)⟩
          (result, cache ++ [(sentHash, result)])

/-- `findBestMatch`: the phrase with the strictly best Jaccard score
against the normalised sentence, if that score exceeds 0.5. -/
def findBestMatch (phrases : List ResumePhrase) (sentence : List Char) :
    Option ResumePhrase :=
  let normalized := normalizeText sentence
  let best := phrases.foldl (fun (acc : ℚ × Option ResumePhrase) p =>
    let score := jaccardSimilarity normalized p.normalized
    if acc.1 < score then (score, some p) else acc) (0, none)
  if (1 : ℚ)/2 < best.1 then best.2 else none

/-! ### The aggregate (`validateSentences`) -/

/-- A suggested correction. -/
structure Correction where
  original : List Char
  corrected : List Char
  reason : List Char
deriving DecidableEq

/-- The validation report. `score` is `none` when the JavaScript value
is `NaN`. -/
structure ValidationResult where
  isValid : Bool
  score : Option ℚ
  flaggedClaims : List (List Char)
  supportedClaims : List (List Char)
  corrections : List Correction
deriving DecidableEq

/-- The accumulating state of the `for (const sentence of sentences)`
loop. -/
structure ValidationAcc where
  cache : ValidationCache
  totalSupported : Nat
  flagged : List (List Char)
  supported : List (List Char)
  corrections : List Correction

/-- The sentence loop of `validateSentences`, threading the memo. -/
def runValidation (phrases : List ResumePhrase) :
    ValidationCache → List (List Char) → ValidationAcc
  | cache, [] => ⟨cache, 0, [], [], []⟩
  | cache, sentence :: rest =>
    let v := validateSentence phrases cache sentence
    let acc := runValidation phrases v.2 rest
    if v.1.supported then
      ⟨acc.cache, acc.totalSupported + 1, acc.flagged, sentence :: acc.supported,
       acc.corrections⟩
    else
      ⟨acc.cache, acc.totalSupported, sentence :: acc.flagged, acc.supported,
       (match findBestMatch phrases sentence with
        | some bestMatch =>
          [⟨sentence, bestMatch.text,
            "Replaced with verified information from resume".data⟩]
        | none => []) ++ acc.corrections⟩

/-- `Math.round`: round half toward positive infinity. -/
def jsRound (q : ℚ) : ℚ :=
  ((⌊q + 1/2⌋ : Int) : ℚ)

/-- `validateSentences`: lenient short-circuit below 5 phrases
(fixed score 85, everything supported, no tier evaluated); otherwise run
the cascade over every sentence and score
`round(max(supportedCount/total*100, 75))` with `isValid = score ≥ 70`.
For an empty sentence list the JavaScript quotient `0/0` is `NaN`, which
`Math.max`, `Math.round` and `>= 70` propagate (modelled by `none`). -/
def validateSentences (phrases : List ResumePhrase) (cache : ValidationCache)
    (sentences : List (List Char)) : ValidationResult :=
  if phrases.length < 5 then
    ⟨true, some 85, [], sentences, []⟩
  else
    let acc := runValidation phrases cache sentences
    if sentences.length = 0 then
      ⟨false, none, acc.flagged, acc.supported, acc.corrections⟩
    else
      let rawScore : ℚ := ((acc.totalSupported : ℚ) / (sentences.length : ℚ)) * 100
      let adjustedScore := max rawScore 75
      let score := jsRound adjustedScore
      ⟨decide ((70 : ℚ) ≤ score), some score, acc.flagged, acc.supported,
       acc.corrections⟩

/-! ### Validator claims -/

theorem bestJaccard_le_init (normalized : List Char) :
    ∀ (l : List ResumePhrase) (b : ℚ),
      b ≤ List.foldl (fun b p =>
        let similarity := jaccardSimilarity normalized p.normalized
        if b < similarity then similarity else b) b l := by
  intro l
  induction l with
  | nil => intro b; simp
  | cons p rest ih =>
    intro b
    refine le_trans ?_ (ih _)
    dsimp only
    by_cases hs : b < jaccardSimilarity normalized p.normalized
    · rw [if_pos hs]; exact le_of_lt hs
    · rw [if_neg hs]

theorem bestJaccard_mem_aux (normalized : List Char) {p : ResumePhrase} :
    ∀ (l : List ResumePhrase), p ∈ l → ∀ (b : ℚ),
      jaccardSimilarity normalized p.normalized
        ≤ List.foldl (fun b p =>
            let similarity := jaccardSimilarity normalized p.normalized
            if b < similarity then similarity else b) b l := by
  intro l
  induction l with
  | nil => intro hp; simp at hp
  | cons q rest ih =>
    intro hp b
    rcases List.mem_cons.mp hp with hp | hp
    · subst hp
      refine le_trans ?_ (bestJaccard_le_init normalized rest _)
      dsimp only
      by_cases hs : b < jaccardSimilarity normalized p.normalized
      · rw [if_pos hs]
      · rw [if_neg hs]; exact le_of_not_lt hs
    · exact ih hp _

/-- The tier-3 best score dominates the score of every phrase. -/
theorem bestJaccard_ge {phrases : List ResumePhrase} {p : ResumePhrase}
    (hp : p ∈ phrases) (normalized : List Char) :
    jaccardSimilarity normalized p.normalized ≤ bestJaccard phrases normalized := by
  unfold bestJaccard
  exact bestJaccard_mem_aux normalized phrases hp 0

/-- No more sentences are counted supported than exist. -/
theorem runValidation_totalSupported_le (phrases : List ResumePhrase) :
    ∀ (cache : ValidationCache) (sentences : List (List Char)),
      (runValidation phrases cache sentences).totalSupported ≤ sentences.length := by
  intro cache sentences
  induction sentences generalizing cache with
  | nil => simp [runValidation]
  | cons s rest ih =>
    rw [runValidation]
    dsimp only
    by_cases hs : (validateSentence phrases cache s).1.supported
    · rw [if_pos hs]
      exact Nat.succ_le_succ (ih _)
    · rw [if_neg hs]
      exact le_trans (ih _) (by simp)

/-- `Math.round` stays within closed rational bounds. -/
theorem jsRound_bounds {q : ℚ} (h75 : 75 ≤ q) (h100 : q ≤ 100) :
    75 ≤ jsRound q ∧ jsRound q ≤ 100 := by
  unfold jsRound
  constructor
  · have : (75 : Int) ≤ ⌊q + 1/2⌋ := by
      rw [Int.le_floor]
      push_cast
      linarith
    exact_mod_cast this
  · have : ⌊q + 1/2⌋ < (101 : Int) := by
      rw [Int.floor_lt]
      push_cast
      linarith
    have h2 : ⌊q + 1/2⌋ ≤ (100 : Int) := by omega
    exact_mod_cast h2

/-- Five identical phrases, for concrete validator inputs. -/
def c5Phrases : List ResumePhrase :=
  List.replicate 5 ⟨"led team".data, normalizeText "led team".data, PhraseType.achievement⟩

/-- C5 (counterexample): as stated — over *every* sentence set — the
claim fails: with a PhraseIndex of 5 phrases and an *empty* sentence
set, `supportedCount/total` is the JavaScript `0/0 = NaN`, which `max`
and `round` propagate, so the returned score is `NaN` (not a number ≥
75) and `isValid` is false. -/
theorem validateSentences_empty_sentences_counterexample :
    c5Phrases.length = 5 ∧
    (validateSentences c5Phrases [] []).score = none ∧
    (validateSentences c5Phrases [] []).isValid = false :=
  ⟨rfl, rfl, rfl⟩

/-- C5 (amended): for every validator whose PhraseIndex contains at
least 5 phrases and every *non-empty* sentence list — including lists in
which no sentence matches any phrase — `validateSentences` returns a
score between 75 and 100, computed as the rounding of
`max(supportedCount/total*100, 75)`, and `isValid = (score ≥ 70)`. -/
theorem validateSentences_score_floor (phrases : List ResumePhrase)
    (cache : ValidationCache) (sentences : List (List Char))
    (h5 : 5 ≤ phrases.length) (hne : sentences ≠ []) :
    ∃ q : ℚ,
      (validateSentences phrases cache sentences).score = some q ∧
      75 ≤ q ∧ q ≤ 100 ∧
      q = jsRound (max (((runValidation phrases cache sentences).totalSupported : ℚ)
          / (sentences.length : ℚ) * 100) 75) ∧
      (validateSentences phrases cache sentences).isValid = decide ((70 : ℚ) ≤ q) := by
  have h5' : ¬ phrases.length < 5 := by omega
  have hlen : ¬ sentences.length = 0 := by
    intro h
    exact hne (List.length_eq_zero.mp h)
  have hlenpos : (0 : ℚ) < (sentences.length : ℚ) := by
    have : 0 < sentences.length := Nat.pos_of_ne_zero hlen
    exact_mod_cast this
  have hsup : (runValidation phrases cache sentences).totalSupported ≤ sentences.length :=
    runValidation_totalSupported_le phrases cache sentences
  set raw : ℚ := ((runValidation phrases cache sentences).totalSupported : ℚ)
      / (sentences.length : ℚ) * 100 with hraw
  have hraw100 : raw ≤ 100 := by
    rw [hraw]
    have hdiv : ((runValidation phrases cache sentences).totalSupported : ℚ)
        / (sentences.length : ℚ) ≤ 1 := by
      rw [div_le_one hlenpos]
      exact_mod_cast hsup
    nlinarith
  have hadj75 : 75 ≤ max raw 75 := le_max_right raw 75
  have hadj100 : max raw 75 ≤ 100 := max_le hraw100 (by norm_num)
  have hbounds := jsRound_bounds hadj75 hadj100
  refine ⟨jsRound (max raw 75), ?_, hbounds.1, hbounds.2, rfl, ?_⟩
  · simp only [validateSentences, if_neg h5', if_neg hlen]
  · simp only [validateSentences, if_neg h5', if_neg hlen]

/-- Witness for `validateSentences_score_floor`: one boilerplate
sentence against five phrases. -/
theorem validateSentences_score_floor_witness :
    ∃ q : ℚ,
      (validateSentences c5Phrases [] ["Dear hiring team".data]).score = some q ∧
      75 ≤ q ∧ q ≤ 100 := by
  obtain ⟨q, h1, h2, h3, _, _⟩ :=
    validateSentences_score_floor c5Phrases [] ["Dear hiring team".data]
      (by decide) (by decide)
  exact ⟨q, h1, h2, h3⟩

/-- C6: for every validator built from a source document yielding fewer
than 5 phrases, and every sentence list, `validateSentences` returns
exactly `isValid = true`, `score = 85`, no flagged claims, no
corrections, and the full input list as supported claims — the lenient
short-circuit, taken before any validation tier is evaluated. -/
theorem validateSentences_lenient_mode (resumeContent : List Char)
    (cache : ValidationCache) (sentences : List (List Char))
    (h : (extractResumePhrases resumeContent).length < 5) :
    validateSentences (extractResumePhrases resumeContent) cache sentences
      = ⟨true, some 85, [], sentences, []⟩ := by
  rw [validateSentences, if_pos h]

/-- Witness for `validateSentences_lenient_mode`: the empty document
yields 0 phrases and any sentence is marked supported at score 85. -/
theorem validateSentences_lenient_mode_witness :
    validateSentences (extractResumePhrases "".data) [] ["I ran the project".data]
      = ⟨true, some 85, [], ["I ran the project".data], []⟩ :=
  validateSentences_lenient_mode "".data [] ["I ran the project".data] (by decide)

/-- The resume line of the end-to-end validator scenario. -/
def c9TargetLine : List Char :=
  "Led a team of 12 engineers, reducing deployment time by 40%".data

/-- The candidate cover-letter sentence of the scenario. -/
def c9Candidate : List Char :=
  "I led a team of 12 engineers".data

/-- C9: for every source document containing the line "Led a team of 12
engineers, reducing deployment time by 40%", a fresh (cold-cache)
validation of "I led a team of 12 engineers" marks the sentence
supported with confidence at least 0.15, and the verdict comes from
tier 2 (normalized containment, confidence 1) or from tier 3 (best
Jaccard similarity, which is at least 0.15 and becomes the
confidence). -/
theorem validateSentence_c9_supported (resumeContent : List Char)
    (hline : c9TargetLine ∈ jsSplitChar '\n' resumeContent) :
    ((validateSentence (extractResumePhrases resumeContent) [] c9Candidate).1).supported = true ∧
    (3 : ℚ)/20 ≤ ((validateSentence (extractResumePhrases resumeContent) [] c9Candidate).1).confidence ∧
    (((validateSentence (extractResumePhrases resumeContent) [] c9Candidate).1).confidence = 1 ∨
     ((3 : ℚ)/20 ≤ bestJaccard (extractResumePhrases resumeContent) (normalizeText c9Candidate) ∧
      ((validateSentence (extractResumePhrases resumeContent) [] c9Candidate).1).confidence
        = bestJaccard (extractResumePhrases resumeContent) (normalizeText c9Candidate))) := by
  set phrases := extractResumePhrases resumeContent with hph
  have hp : (⟨c9TargetLine, normalizeText c9TargetLine, PhraseType.role⟩ : ResumePhrase)
      ∈ phrases := by
    rw [hph]
    unfold extractResumePhrases
    exact List.mem_flatMap.mpr ⟨c9TargetLine, hline, by decide⟩
  have hi : ((dedupKeepFirst (jsSplitChar '_' (normalizeText c9Candidate))).filter
      (fun x => decide (x ∈ dedupKeepFirst (jsSplitChar '_' (normalizeText c9TargetLine))))).length
      = 6 := by rfl
  have hu : (dedupKeepFirst (dedupKeepFirst (jsSplitChar '_' (normalizeText c9Candidate))
      ++ dedupKeepFirst (jsSplitChar '_' (normalizeText c9TargetLine)))).length = 12 := by rfl
  have hjac : jaccardSimilarity (normalizeText c9Candidate) (normalizeText c9TargetLine)
      = 1/2 := by
    unfold jaccardSimilarity
    dsimp only
    rw [hi, hu]
    norm_num
  have h2 : jaccardSimilarity (normalizeText c9Candidate) (normalizeText c9TargetLine)
      ≤ bestJaccard phrases (normalizeText c9Candidate) :=
    bestJaccard_ge hp (normalizeText c9Candidate)
  rw [hjac] at h2
  have h15 : (3 : ℚ)/20 ≤ bestJaccard phrases (normalizeText c9Candidate) := by linarith
  by_cases ht2 : phrases.any (fun p =>
      decide (p.normalized ≠ []) && listContainsSub (normalizeText c9Candidate) p.normalized) = true
  · have hres : (validateSentence phrases [] c9Candidate).1 = ⟨true, 1⟩ := by
      unfold validateSentence
      dsimp only [cacheLookup]
      rw [if_pos ht2]
    refine ⟨by rw [hres], ?_, Or.inl (by rw [hres])⟩
    rw [hres]
    norm_num
  · have hres : (validateSentence phrases [] c9Candidate).1
        = ⟨true, bestJaccard phrases (normalizeText c9Candidate)⟩ := by
      unfold validateSentence
      dsimp only [cacheLookup]
      rw [if_neg ht2, if_pos h15]
    refine ⟨by rw [hres], ?_, Or.inr ⟨h15, by rw [hres]⟩⟩
    rw [hres]
    exact h15

/-- Witness for `validateSentence_c9_supported`: the document consisting
of exactly the target line. -/
theorem validateSentence_c9_supported_witness :
    ((validateSentence (extractResumePhrases c9TargetLine) [] c9Candidate).1).supported = true ∧
    (3 : ℚ)/20 ≤ ((validateSentence (extractResumePhrases c9TargetLine) [] c9Candidate).1).confidence := by
  obtain ⟨h1, h2, _⟩ := validateSentence_c9_supported c9TargetLine (by decide)
  exact ⟨h1, h2⟩

/-! ## The orchestrator (`CoverLetterPipeline.execute`, `server/pipeline.ts`)

The three database tables `execute` touches (`DatabaseStorage`,
`server/documentProcessor.ts`) are modelled as in-memory lists of rows;
an `update ... where eq(id)` maps the update over every row with that
`id` and `.returning()` yields the first updated row.  External
capabilities (the AI agents, the raw-content providers, `Date.now`) are
an explicit environment; the awaits that can reject carry `Except`. -/

/-- A row of `cover_letters` (the fields `execute` reads or writes). -/
structure CoverLetterRec where
  id : Nat
  userId : Nat
  jobDescriptionId : Nat
  content : Option SectionMap
  qualityScore : Option ℚ
  atsScore : Option ℚ
  styleScore : Option ℚ
  clarityScore : Option ℚ
  impactScore : Option ℚ
  validationScore : Option ℚ
  validationResult : Option JSValue
  status : String

/-- A row of `job_descriptions`. -/
structure JobDescriptionRec where
  id : Nat
  userId : Nat
  title : String
  company : String
  content : List Char
  createdAt : Int
  atsKeywords : Option JSValue
  keyRequirements : Option JSValue

/-- A row of `pipeline_runs`. -/
structure PipelineRunRec where
  id : Nat
  coverLetterId : Nat
  startedAt : Int
  status : String
  progress : Option ℚ
  currentStep : String
  agentLogs : Option JSValue
  completedAt : Option Int

/-- The three tables. -/
structure Storage where
  coverLetters : List CoverLetterRec
  jobDescriptions : List JobDescriptionRec
  pipelineRuns : List PipelineRunRec

/-- `Partial<CoverLetter>`: a field is `some` when present in the
update object. -/
structure CoverLetterUpdate where
  content : Option SectionMap
  qualityScore : Option ℚ
  atsScore : Option ℚ
  styleScore : Option ℚ
  clarityScore : Option ℚ
  impactScore : Option ℚ
  validationScore : Option ℚ
  validationResult : Option JSValue
  status : Option String

/-- `Partial<PipelineRun>`. -/
structure PipelineRunUpdate where
  status : Option String
  progress : Option ℚ
  currentStep : Option String
  agentLogs : Option JSValue
  completedAt : Option Int

/-- `db.update(coverLetters).set(updates)` on one row. -/
def applyCoverLetterUpdate (u : CoverLetterUpdate) (r : CoverLetterRec) : CoverLetterRec :=
  ⟨r.id, r.userId, r.jobDescriptionId,
   u.content.elim r.content some,
   u.qualityScore.elim r.qualityScore some,
   u.atsScore.elim r.atsScore some,
   u.styleScore.elim r.styleScore some,
   u.clarityScore.elim r.clarityScore some,
   u.impactScore.elim r.impactScore some,
   u.validationScore.elim r.validationScore some,
   u.validationResult.elim r.validationResult some,
   u.status.elim r.status id⟩

/-- `db.update(pipelineRuns).set(updates)` on one row. -/
def applyPipelineRunUpdate (u : PipelineRunUpdate) (r : PipelineRunRec) : PipelineRunRec :=
  ⟨r.id, r.coverLetterId, r.startedAt,
   u.status.elim r.status id,
   u.progress.elim r.progress some,
   u.currentStep.elim r.currentStep id,
   u.agentLogs.elim r.agentLogs some,
   u.completedAt.elim r.completedAt some⟩

/-- `getCoverLetter(id)`: first row with that id, or undefined. -/
def getCoverLetterS (st : Storage) (cid : Nat) : Option CoverLetterRec :=
  st.coverLetters.find? (fun r => decide (r.id = cid))

/-- Descending insertion by `createdAt` (`orderBy(desc(createdAt))`). -/
def insertByCreatedAtDesc (j : JobDescriptionRec) :
    List JobDescriptionRec → List JobDescriptionRec
  | [] => [j]
  | x :: rest =>
    if x.createdAt < j.createdAt then j :: x :: rest
    else x :: insertByCreatedAtDesc j rest

def sortByCreatedAtDesc : List JobDescriptionRec → List JobDescriptionRec
  | [] => []
  | j :: rest => insertByCreatedAtDesc j (sortByCreatedAtDesc rest)

/-- `getJobDescriptionsByUserId(userId)`: the user's rows, newest
first. -/
def getJobDescriptionsByUserIdS (st : Storage) (userId : Nat) : List JobDescriptionRec :=
  sortByCreatedAtDesc (st.jobDescriptions.filter (fun j => decide (j.userId = userId)))

/-- `updateJobDescription(id, {atsKeywords, keyRequirements})`. -/
def updateJobDescriptionS (st : Storage) (jid : Nat) (ats keyreq : JSValue) : Storage :=
  ⟨st.coverLetters,
   st.jobDescriptions.map (fun j =>
     if j.id = jid then
       ⟨j.id, j.userId, j.title, j.company, j.content, j.createdAt, some ats, some keyreq⟩
     else j),
   st.pipelineRuns⟩

/-- `updateCoverLetter(id, updates)`: update matching rows, return the
first updated row (undefined when none matched). -/
def updateCoverLetterS (st : Storage) (cid : Nat) (u : CoverLetterUpdate) :
    Option CoverLetterRec × Storage :=
  let letters := st.coverLetters.map (fun r =>
    if r.id = cid then applyCoverLetterUpdate u r else r)
  (letters.find? (fun r => decide (r.id = cid)),
   ⟨letters, st.jobDescriptions, st.pipelineRuns⟩)

/-- `updatePipelineRun(id, updates)`. -/
def updatePipelineRunS (st : Storage) (rid : Nat) (u : PipelineRunUpdate) :
    Option PipelineRunRec × Storage :=
  let runs := st.pipelineRuns.map (fun r =>
    if r.id = rid then applyPipelineRunUpdate u r else r)
  (runs.find? (fun r => decide (r.id = rid)),
   ⟨st.coverLetters, st.jobDescriptions, runs⟩)

/-- `orderBy(desc(startedAt)).limit(1)`: the row with the greatest
`startedAt` (the earlier row on ties). -/
def latestRun : List PipelineRunRec → Option PipelineRunRec
  | [] => none
  | r :: rest =>
    match latestRun rest with
    | none => some r
    | some b => if r.startedAt < b.startedAt then some b else some r

/-- `getPipelineRunByCoverLetterId(coverLetterId)`. -/
def getPipelineRunByCoverLetterIdS (st : Storage) (cid : Nat) : Option PipelineRunRec :=
  latestRun (st.pipelineRuns.filter (fun r => decide (r.coverLetterId = cid)))

/-- `updateProgress(step, progress)` (`totalSteps = 9`): write
`currentStep` and `Math.round(progress/9*100)` into the latest pipeline
run for this cover letter, if one exists. -/
def updateProgressS (cid : Nat) (step : String) (progress : Nat) (st : Storage) : Storage :=
  match getPipelineRunByCoverLetterIdS st cid with
  | none => st
  | some run =>
    (updatePipelineRunS st run.id
      ⟨none, some (jsRound ((progress : ℚ) / 9 * 100)), some step, none, none⟩).2

/-- One of the four optional value propositions (`{title, details}`). -/
structure ValuePropRec where
  title : List Char
  details : List Char

/-- The object returned by the ValueProps agent. -/
structure ValuePropsRec where
  prop1 : Option ValuePropRec
  prop2 : Option ValuePropRec
  prop3 : Option ValuePropRec
  prop4 : Option ValuePropRec

/-- `valueProps.propN?.title || ""` (the empty string is its own `||`
fallback). -/
def vpTitle (o : Option ValuePropRec) : List Char := o.elim [] (fun p => p.title)

def vpDetails (o : Option ValuePropRec) : List Char := o.elim [] (fun p => p.details)

/-- The argument bundle every generation agent receives:
`(styleGuideContent, matchedAccomplishments, atsKeywords,
keyRequirements, currentJob)`. -/
abbrev AgentArgs :=
  List Char × JSValue × JSValue × JSValue × JobDescriptionRec

/-- The external capabilities of `execute`.  The generation agents, the
resume validation and the coherence refinement each wrap their AI call
in a `try`/`catch` that returns a fallback value, so they are total;
the raw-content and embeddings providers can reject, so they return
`Except`.  `mapOutcome` is the oracle of the accomplishment-mapping try
block (`mapAccomplishmentsToRequirements` catches it internally). -/
structure ExecEnv where
  now : Int
  extractATSKeywords : List Char → JSValue
  extractKeyRequirements : List Char → JSValue
  styleGuideContent : Nat → Except String (List Char)
  resumeContent : Nat → Except String (List Char)
  resumeEmbeddings : Nat → Except String JSValue
  mapOutcome : Except String JSValue
  openingHook : AgentArgs → List Char
  alignmentParagraph : AgentArgs → List Char
  whyCompany : AgentArgs → List Char
  leadership : AgentArgs → List Char
  valueProps : AgentArgs → ValuePropsRec
  publicSectorInterest : AgentArgs → List Char
  closingParagraph : AgentArgs → List Char
  validateAgainstResume : SectionMap → List Char → JSValue → SectionMap × ℚ × JSValue
  coherenceRefinement : SectionMap → SectionMap

/-- The aggregation step: `coverLetterData` with its 16 keys in source
order. -/
def mkCoverLetterData (company : String) (openingHook alignment whyCompany leadership :
    List Char) (vp : ValuePropsRec) (publicSector closing : List Char) : SectionMap :=
  [("HiringManagerOrTeamName", JSValue.str (company.data ++ " Hiring Team".data)),
   ("OpeningHookParagraph", JSValue.str openingHook),
   ("AlignmentParagraph", JSValue.str alignment),
   ("WhyCompanySentence", JSValue.str whyCompany),
   ("LeadershipParagraph", JSValue.str leadership),
   ("ValueProp1Title", JSValue.str (vpTitle vp.prop1)),
   ("ValueProp1Details", JSValue.str (vpDetails vp.prop1)),
   ("ValueProp2Title", JSValue.str (vpTitle vp.prop2)),
   ("ValueProp2Details", JSValue.str (vpDetails vp.prop2)),
   ("ValueProp3Title", JSValue.str (vpTitle vp.prop3)),
   ("ValueProp3Details", JSValue.str (vpDetails vp.prop3)),
   ("ValueProp4Title", JSValue.str (vpTitle vp.prop4)),
   ("ValueProp4Details", JSValue.str (vpDetails vp.prop4)),
   ("PublicSectorInterestParagraph", JSValue.str publicSector),
   ("ClosingParagraph", JSValue.str closing),
   ("CandidateFullName", JSValue.str "Collin A. Spears".data)]

/-- The `try` body of `execute`: the sequence of state transitions up
to (and including) the success-path final updates.  Returns the
outcome (`updatedCoverLetter`, or the thrown error message), the
storage and the cover-letter data cache. -/
def executeTry (env : ExecEnv) (cid : Nat) (st0 : Storage) (cs0 : CacheStore) :
    Except String (Option CoverLetterRec) × Storage × CacheStore :=
  match getCoverLetterS st0 cid with
  | none => (Except.error "Cover letter not found", st0, cs0)
  | some coverLetter =>
    match (getJobDescriptionsByUserIdS st0 coverLetter.userId).find?
        (fun j => decide (j.id = coverLetter.jobDescriptionId)) with
    | none =>
      (Except.error ("Job description with ID "
        ++ toString coverLetter.jobDescriptionId ++ " not found"), st0, cs0)
    | some currentJob =>
      let st1 := updateProgressS cid "Running parallel analysis" 1 st0
      let atsKeywords := env.extractATSKeywords currentJob.content
      let keyRequirements := env.extractKeyRequirements currentJob.content
      let st2 := updateJobDescriptionS st1 currentJob.id atsKeywords keyRequirements
      let st3 := updateProgressS cid "Loading style guide content" 2 st2
      match env.styleGuideContent coverLetter.userId with
      | Except.error e => (Except.error e, st3, cs0)
      | Except.ok styleGuide =>
        match env.resumeContent coverLetter.userId with
        | Except.error e => (Except.error e, st3, cs0)
        | Except.ok resume =>
          match env.resumeEmbeddings coverLetter.userId with
          | Except.error e => (Except.error e, st3, cs0)
          | Except.ok embeddings =>
            let st4 := updateProgressS cid "Checking cover letter cache" 3 st3
            let cacheRes := coverLetterCacheStep currentJob.title currentJob.company
              coverLetter.userId env.mapOutcome cs0 env.now
            let matched := cacheRes.1
            let cs1 := cacheRes.2
            let st5 := updateProgressS cid "Generating sections in parallel" 4 st4
            let args : AgentArgs :=
              (styleGuide, matched, atsKeywords, keyRequirements, currentJob)
            let coverLetterData := mkCoverLetterData currentJob.company
              (env.openingHook args) (env.alignmentParagraph args)
              (env.whyCompany args) (env.leadership args) (env.valueProps args)
              (env.publicSectorInterest args) (env.closingParagraph args)
            let st6 := updateProgressS cid "Validating against resume" 6 st5
            let vres := env.validateAgainstResume coverLetterData resume embeddings
            let st7 := updateProgressS cid "Coherence analysis" 7 st6
            let polished := env.coherenceRefinement vres.1
            let overall := jsRound ((95 + 96 + 96 + 97 + vres.2.1) / 5)
            let st8 := updateProgressS cid "Validating word count" 8 st7
            let validated := wordCountValidator polished 480
            let st9 := updateProgressS cid "Finalizing Document" 9 st8
            let upd : CoverLetterUpdate :=
              ⟨some validated, some overall, some 96, some 95, some 96, some 97,
               some vres.2.1, some vres.2.2,
               some (if 70 ≤ overall ∧ 0 ≤ vres.2.1 then "completed" else "refining")⟩
            let res := updateCoverLetterS st9 cid upd
            let st10 := res.2
            let st11 :=
              match getPipelineRunByCoverLetterIdS st10 cid with
              | none => st10
              | some run =>
                (updatePipelineRunS st10 run.id
                  ⟨some "completed", some 100, none, none, some env.now⟩).2
            (Except.ok res.1, st11, cs1)

/-- The `Partial<CoverLetter>` written by the catch block. -/
def clFailedUpdate : CoverLetterUpdate :=
  ⟨none, none, none, none, none, none, none, none, some "failed"⟩

/-- The `Partial<PipelineRun>` written by the catch block for error
message `e`. -/
def runFailedUpdate (e : String) : PipelineRunUpdate :=
  ⟨some "failed", none, none, some (JSValue.obj [("error", JSValue.str e.data)]), none⟩

/-- The catch block of `execute`: mark the latest pipeline run (if any)
failed with the error in its log map, then mark the cover letter
failed. -/
def catchBlock (cid : Nat) (e : String) (st : Storage) : Storage :=
  let stA :=
    match getPipelineRunByCoverLetterIdS st cid with
    | none => st
    | some run => (updatePipelineRunS st run.id (runFailedUpdate e)).2
  (updateCoverLetterS stA cid clFailedUpdate).2

/-- The observable outcome of `execute`: the returned value or rethrown
error, the final storage and cache, and whether `clearInterval` ran on
the watchdog. -/
structure ExecResult where
  outcome : Except String (Option CoverLetterRec)
  storage : Storage
  cache : CacheStore
  watchdogCleared : Bool

/-- `execute`: the try body, wrapped by the watchdog `setInterval` /
`clearInterval` pair and the catch block; the catch rethrows. -/
def execute (env : ExecEnv) (cid : Nat) (st0 : Storage) (cs0 : CacheStore) : ExecResult :=
  match executeTry env cid st0 cs0 with
  | (Except.ok v, st, cs) => ⟨Except.ok v, st, cs, true⟩
  | (Except.error e, st, cs) => ⟨Except.error e, catchBlock cid e st, cs, true⟩

theorem updateProgressS_coverLetters (cid : Nat) (step : String) (p : Nat) (st : Storage) :
    (updateProgressS cid step p st).coverLetters = st.coverLetters := by
  unfold updateProgressS
  cases getPipelineRunByCoverLetterIdS st cid <;> rfl

theorem updateJobDescriptionS_coverLetters (st : Storage) (jid : Nat) (a k : JSValue) :
    (updateJobDescriptionS st jid a k).coverLetters = st.coverLetters := rfl

/-- Every abort point of the try body leaves the cover-letters table as
it was at entry: the only cover-letter write is the success-path final
update. -/
theorem executeTry_error_state (env : ExecEnv) (cid : Nat) (st0 : Storage) (cs0 : CacheStore)
    (e : String) (st1 : Storage) (cs1 : CacheStore)
    (h : executeTry env cid st0 cs0 = (Except.error e, st1, cs1)) :
    st1.coverLetters = st0.coverLetters := by
  unfold executeTry at h
  repeat' split at h
  all_goals
    first
    | (injection h with h1 h2
       exact Except.noConfusion h1)
    | (injection h with h1 h2
       injection h2 with hst hcs
       subst hst
       simp [updateProgressS_coverLetters, updateJobDescriptionS_coverLetters])

theorem filter_map_runs (g : PipelineRunRec → PipelineRunRec) (p : PipelineRunRec → Bool)
    (hp : ∀ r, p (g r) = p r) :
    ∀ l : List PipelineRunRec, (l.map g).filter p = (l.filter p).map g := by
  intro l
  induction l with
  | nil => rfl
  | cons r rest ih =>
    rw [List.map_cons, List.filter_cons, List.filter_cons, hp r]
    cases hpr : p r <;> simp [hpr, ih]

theorem latestRun_map (g : PipelineRunRec → PipelineRunRec)
    (hs : ∀ r, (g r).startedAt = r.startedAt) :
    ∀ l : List PipelineRunRec, latestRun (l.map g) = (latestRun l).map g := by
  intro l
  induction l with
  | nil => rfl
  | cons r rest ih =>
    rw [List.map_cons, latestRun, latestRun, ih]
    cases latestRun rest with
    | none => rfl
    | some b =>
      dsimp only [Option.map]
      rw [hs r, hs b]
      by_cases hlt : r.startedAt < b.startedAt
      · rw [if_pos hlt, if_pos hlt]
      · rw [if_neg hlt, if_neg hlt]

/-- Updating one pipeline run commutes with selecting the latest run
for a cover letter: the update changes neither `coverLetterId` nor
`startedAt`, so the same row (now updated) is selected. -/
theorem getRun_after_updatePipelineRun (st : Storage) (rid : Nat)
    (u : PipelineRunUpdate) (cid : Nat) :
    getPipelineRunByCoverLetterIdS (updatePipelineRunS st rid u).2 cid
      = (getPipelineRunByCoverLetterIdS st cid).map
          (fun r => if r.id = rid then applyPipelineRunUpdate u r else r) := by
  unfold getPipelineRunByCoverLetterIdS updatePipelineRunS
  dsimp only
  set g := fun r => if r.id = rid then applyPipelineRunUpdate u r else r with hg
  have hp : ∀ r, (fun r => decide (r.coverLetterId = cid)) (g r)
      = (fun r => decide (r.coverLetterId = cid)) r := by
    intro r
    rw [hg]
    dsimp only
    by_cases hid : r.id = rid
    · rw [if_pos hid]
      rfl
    · rw [if_neg hid]
  have hs : ∀ r, (g r).startedAt = r.startedAt := by
    intro r
    rw [hg]
    dsimp only
    by_cases hid : r.id = rid
    · rw [if_pos hid]
      rfl
    · rw [if_neg hid]
  rw [filter_map_runs g _ hp, latestRun_map g hs]

/-- C3: whenever the try body of `execute` throws — the cover-letter
record absent, the job-description record absent, or a raw-content or
embeddings provider rejecting — the run aborts with exactly these
effects: the latest PipelineRun for the cover letter (if one exists at
the moment of failure) is updated to status "failed" with the error
message recorded in its `agentLogs` map, the cover-letter record is
updated to status "failed", the watchdog interval is cancelled, the
error is rethrown, and no cover letter's content is changed — so no
final content is persisted as completed. -/
theorem execute_failure_semantics (env : ExecEnv) (cid : Nat) (st0 : Storage)
    (cs0 : CacheStore) (e : String) (st1 : Storage) (cs1 : CacheStore)
    (herr : executeTry env cid st0 cs0 = (Except.error e, st1, cs1)) :
    (execute env cid st0 cs0).outcome = Except.error e ∧
    (execute env cid st0 cs0).watchdogCleared = true ∧
    (∀ run, getPipelineRunByCoverLetterIdS st1 cid = some run →
      getPipelineRunByCoverLetterIdS (execute env cid st0 cs0).storage cid
        = some (applyPipelineRunUpdate (runFailedUpdate e) run) ∧
      (applyPipelineRunUpdate (runFailedUpdate e) run).status = "failed" ∧
      (applyPipelineRunUpdate (runFailedUpdate e) run).agentLogs
        = some (JSValue.obj [("error", JSValue.str e.data)])) ∧
    (∀ r ∈ (execute env cid st0 cs0).storage.coverLetters, r.id = cid → r.status = "failed") ∧
    (execute env cid st0 cs0).storage.coverLetters.map (fun r => (r.id, r.content))
      = st0.coverLetters.map (fun r => (r.id, r.content)) := by
  have hex : execute env cid st0 cs0 = ⟨Except.error e, catchBlock cid e st1, cs1, true⟩ := by
    unfold execute
    rw [herr]
  have hcov : st1.coverLetters = st0.coverLetters :=
    executeTry_error_state env cid st0 cs0 e st1 cs1 herr
  have hA : (match getPipelineRunByCoverLetterIdS st1 cid with
      | none => st1
      | some run => (updatePipelineRunS st1 run.id (runFailedUpdate e)).2).coverLetters
      = st1.coverLetters := by
    cases getPipelineRunByCoverLetterIdS st1 cid <;> rfl
  have hfin : (execute env cid st0 cs0).storage.coverLetters
      = st0.coverLetters.map
          (fun r => if r.id = cid then applyCoverLetterUpdate clFailedUpdate r else r) := by
    rw [hex]
    show (catchBlock cid e st1).coverLetters = _
    unfold catchBlock
    have hstep : ∀ stA : Storage, (updateCoverLetterS stA cid clFailedUpdate).2.coverLetters
        = stA.coverLetters.map
            (fun r => if r.id = cid then applyCoverLetterUpdate clFailedUpdate r else r) :=
      fun stA => rfl
    rw [hstep, hA, hcov]
  refine ⟨by rw [hex], by rw [hex], ?_, ?_, ?_⟩
  · intro run hrun
    have hcb : catchBlock cid e st1
        = (updateCoverLetterS (updatePipelineRunS st1 run.id (runFailedUpdate e)).2
            cid clFailedUpdate).2 := by
      unfold catchBlock
      rw [hrun]
    have hruns : getPipelineRunByCoverLetterIdS (execute env cid st0 cs0).storage cid
        = getPipelineRunByCoverLetterIdS
            (updatePipelineRunS st1 run.id (runFailedUpdate e)).2 cid := by
      rw [hex]
      show getPipelineRunByCoverLetterIdS (catchBlock cid e st1) cid = _
      rw [hcb]
      rfl
    refine ⟨?_, rfl, rfl⟩
    rw [hruns, getRun_after_updatePipelineRun, hrun]
    dsimp only [Option.map]
    rw [if_pos rfl]
  · intro r hr hid
    rw [hfin] at hr
    obtain ⟨r0, hr0, rfl⟩ := List.mem_map.mp hr
    by_cases h0 : r0.id = cid
    · rw [if_pos h0]
      rfl
    · rw [if_neg h0] at hid ⊢
      exact absurd hid h0
  · rw [hfin, List.map_map]
    refine List.map_congr_left ?_
    intro r hr
    by_cases h0 : r.id = cid
    · dsimp only [Function.comp]
      rw [if_pos h0]
      rfl
    · dsimp only [Function.comp]
      rw [if_neg h0]

/-- A concrete environment whose external capabilities all succeed. -/
def envW : ExecEnv :=
  ⟨0, fun _ => JSValue.arr [], fun _ => JSValue.arr [],
   fun _ => Except.ok [], fun _ => Except.ok [], fun _ => Except.ok (JSValue.arr []),
   Except.ok (JSValue.arr []),
   fun _ => [], fun _ => [], fun _ => [], fun _ => [],
   fun _ => ⟨none, none, none, none⟩, fun _ => [], fun _ => [],
   fun m _ _ => (m, 100, JSValue.obj []), fun m => m⟩

/-- A running pipeline run for cover letter 1. -/
def runW : PipelineRunRec := ⟨5, 1, 0, "running", none, "", none, none⟩

/-- A storage with no cover letter 1 but a pipeline run for it. -/
def stW : Storage := ⟨[], [], [runW]⟩

/-- Witness for `execute_failure_semantics`: with cover letter 1 absent
the try body throws "Cover letter not found"; the pipeline run is
marked failed with the message logged, the error is rethrown, the
watchdog is cancelled, and no cover-letter content changes. -/
theorem execute_failure_semantics_witness :
    (execute envW 1 stW []).outcome = Except.error "Cover letter not found" ∧
    (execute envW 1 stW []).watchdogCleared = true ∧
    getPipelineRunByCoverLetterIdS (execute envW 1 stW []).storage 1
      = some (applyPipelineRunUpdate (runFailedUpdate "Cover letter not found") runW) ∧
    (applyPipelineRunUpdate (runFailedUpdate "Cover letter not found") runW).status
      = "failed" ∧
    (applyPipelineRunUpdate (runFailedUpdate "Cover letter not found") runW).agentLogs
      = some (JSValue.obj [("error", JSValue.str "Cover letter not found".data)]) ∧
    (execute envW 1 stW []).storage.coverLetters.map (fun r => (r.id, r.content))
      = stW.coverLetters.map (fun r => (r.id, r.content)) := by
  obtain ⟨h1, h2, h3, h4, h5⟩ :=
    execute_failure_semantics envW 1 stW [] "Cover letter not found" stW [] rfl
  obtain ⟨h3a, h3b, h3c⟩ := h3 runW (by rfl)
  exact ⟨h1, h2, h3a, h3b, h3c, h5⟩
